import Mathlib

/-!
Verification of the DID-JWT core (src/did_jwt/__init__.py): creation and
verification of three-segment signed tokens.  Python strings and byte strings
are modelled as lists of natural numbers (codepoints / byte values), Python
exceptions as an `Except PyErr` monad, and the pluggable signer / verifier /
resolver capabilities as function parameters.  Wall-clock reads
(`time.time()`) are passed in explicitly as a `now` argument.

Parts of the repository that the source imports but that are not under
`src/` (the canonical JSON serializer `json_canonicalize`, the `pad_base64`
utility) and the standard-library codecs it calls (`base64.urlsafe_b64encode`
/ `urlsafe_b64decode`, UTF-8 encode/decode, `json.loads`) are modelled from
the specification; their doc comments say so explicitly.  JSON numbers are
modelled as integers.
-/

/-- Codepoint sequences stand in for Python `str` and `bytes` values. -/
abbrev Str := List Nat

/-- Convert a Lean string literal to its codepoint list. -/
def strConv (s : String) : Str := s.toList.map Char.toNat

/-- Python single-character `str.split`: always returns one part more than
the number of separator occurrences; empty parts are kept. -/
def splitOn (sep : Nat) : Str → List Str
  | [] => [[]]
  | c :: r =>
    match splitOn sep r with
    | [] => [[c]]
    | p :: ps => if c = sep then [] :: p :: ps else (c :: p) :: ps

/-- Python exceptions that the verification pipeline can raise.  Intended
rejections in the source are `assert` statements with a message
(`assertFail`); decoding failures from the transport / text / JSON layers
and attribute, subscript and index errors are the remaining constructors. -/
inductive PyErr where
  | assertFail (msg : String)
  | b64Error
  | utf8Error
  | jsonError
  | attributeError
  | typeError
  | indexError
  | keyError
deriving DecidableEq

/-- JSON values (numbers restricted to integers). -/
inductive Json where
  | null : Json
  | bool (b : Bool) : Json
  | num (n : Int) : Json
  | str (s : Str) : Json
  | arr (elems : List Json) : Json
  | obj (members : List (Str × Json)) : Json

mutual

/-- Structural equality of JSON values (Python `==` on parsed values). -/
def jeq : Json → Json → Bool
  | .null, .null => true
  | .bool a, .bool b => a == b
  | .num a, .num b => a == b
  | .str a, .str b => a == b
  | .arr a, .arr b => jeqArr a b
  | .obj a, .obj b => jeqObj a b
  | _, _ => false

def jeqArr : List Json → List Json → Bool
  | [], [] => true
  | x :: xs, y :: ys => jeq x y && jeqArr xs ys
  | _, _ => false

def jeqObj : List (Str × Json) → List (Str × Json) → Bool
  | [], [] => true
  | (k, v) :: xs, (k2, v2) :: ys => k == k2 && jeq v v2 && jeqObj xs ys
  | _, _ => false

end

/-- Python truthiness of a JSON value. -/
def truthy : Json → Bool
  | .null => false
  | .bool b => b
  | .num n => n != 0
  | .str s => !s.isEmpty
  | .arr l => !l.isEmpty
  | .obj m => !m.isEmpty

/-- Truthiness of a `dict.get` result (`None` is falsy). -/
def truthyOpt : Option Json → Bool
  | none => false
  | some v => truthy v

/-- First-match association lookup, the value a Python dict stores at a key. -/
def olookup (m : List (Str × Json)) (k : Str) : Option Json :=
  match m with
  | [] => none
  | (k2, v) :: r => if k2 = k then some v else olookup r k

/-- Python `dict.get` on a payload parsed from JSON: a stored JSON `null` is
the Python value `None`, so it behaves like a missing key. -/
def pyGet (m : List (Str × Json)) (k : Str) : Option Json :=
  match olookup m k with
  | some .null => none
  | x => x

/-- Membership of a key in a dict. -/
def hasKey (m : List (Str × Json)) (k : Str) : Bool :=
  m.any (fun kv => kv.1 == k)

/-- Python `d[k] = v`: replace the value in place when the key exists,
append a new entry otherwise. -/
def dictSet (d : List (Str × Json)) (k : Str) (v : Json) : List (Str × Json) :=
  if hasKey d k then d.map (fun kv => if kv.1 = k then (k, v) else kv)
  else d ++ [(k, v)]

/-- Python dict-literal merge `a` updated with the entries of `b` in order
(the semantics of the spread in a dict display). -/
def dictUpdate (a b : List (Str × Json)) : List (Str × Json) :=
  b.foldl (fun acc kv => dictSet acc kv.1 kv.2) a

/-- Codepoint-wise lexicographic order on strings (ties included). -/
def strLeB : Str → Str → Bool
  | [], _ => true
  | _ :: _, [] => false
  | a :: as, b :: bs => if a < b then true else if b < a then false else strLeB as bs

/-- Key order on dict members. -/
def keyLe (a b : Str × Json) : Prop := strLeB a.1 b.1 = true

/-- Key order on serialized dict members. -/
def pairLe (a b : Str × Str) : Prop := strLeB a.1 b.1 = true

instance : DecidableRel keyLe := fun a b => by unfold keyLe; infer_instance

instance : DecidableRel pairLe := fun a b => by unfold pairLe; infer_instance

mutual

/-- Key-sorted normal form of a JSON value: the value that parsing a
canonically serialized document returns (object keys sorted by codepoint at
every level, everything else unchanged). -/
def sortJ : Json → Json
  | .null => .null
  | .bool b => .bool b
  | .num n => .num n
  | .str s => .str s
  | .arr l => .arr (sortArr l)
  | .obj m => .obj (List.insertionSort keyLe (sortMembers m))

def sortArr : List Json → List Json
  | [] => []
  | v :: r => sortJ v :: sortArr r

def sortMembers : List (Str × Json) → List (Str × Json)
  | [] => []
  | (k, v) :: r => (k, sortJ v) :: sortMembers r

end

/-- Unicode scalar values: what a Python `str` character serialized through
UTF-8 can be. -/
def validScalar (c : Nat) : Bool :=
  decide (c < 1114112 ∧ ¬(55296 ≤ c ∧ c < 57344))

/-- All characters of a string are Unicode scalar values. -/
def validStr (s : Str) : Bool := s.all validScalar

/-- Pairwise-distinct keys, the invariant of every Python dict. -/
def nodupKeys : List (Str × Json) → Bool
  | [] => true
  | (k, _) :: r => !(r.any (fun kv => kv.1 == k)) && nodupKeys r

mutual

/-- JSON-representable value: strings are made of Unicode scalar values and
objects have pairwise-distinct keys, at every level. -/
def jsonRep : Json → Bool
  | .null => true
  | .bool _ => true
  | .num _ => true
  | .str s => validStr s
  | .arr l => jsonRepArr l
  | .obj m => nodupKeys m && jsonRepObj m

def jsonRepArr : List Json → Bool
  | [] => true
  | v :: r => jsonRep v && jsonRepArr r

def jsonRepObj : List (Str × Json) → Bool
  | [] => true
  | (k, v) :: r => validStr k && jsonRep v && jsonRepObj r

end

mutual

/-- Structural size of a JSON value, a fuel bound for the parser. -/
def jSize : Json → Nat
  | .null | .bool _ | .num _ | .str _ => 1
  | .arr l => 1 + jSizeArr l
  | .obj m => 1 + jSizeObj m

def jSizeArr : List Json → Nat
  | [] => 0
  | v :: r => jSize v + 1 + jSizeArr r

def jSizeObj : List (Str × Json) → Nat
  | [] => 0
  | (_, v) :: r => jSize v + 1 + jSizeObj r

end

/-- Decimal digits of a natural number, fuelled to stay structural. -/
def natDigitsAux : Nat → Nat → Str
  | 0, _ => []
  | fuel+1, n => if n < 10 then [48 + n] else natDigitsAux fuel (n / 10) ++ [48 + n % 10]

/-- Decimal digit characters of a natural number, most significant first. -/
def natDigits (n : Nat) : Str := natDigitsAux (n + 1) n

/-- Canonical serialization of an integer (plain decimal). -/
def canonNum (n : Int) : Str :=
  if n < 0 then 45 :: natDigits (-n).toNat else natDigits n.toNat

/-- Lowercase hexadecimal digit character. -/
def hexDigit (n : Nat) : Nat := if n < 10 then 48 + n else 87 + n

/-- Modelled from the spec: canonical JSON string escaping (section 4.1,
strings escaped per standard JSON string rules) — quote and backslash get a
backslash escape, control characters a `\u00XX` escape, everything else is
emitted literally.  The serializer it belongs to, `json_canonicalize`, is
repository code that is not under `src/`. -/
def escChar (c : Nat) : Str :=
  if c = 34 then [92, 34]
  else if c = 92 then [92, 92]
  else if c < 32 then [92, 117, 48, 48, hexDigit (c / 16), hexDigit (c % 16)]
  else [c]

def escStr : Str → Str
  | [] => []
  | c :: r => escChar c ++ escStr r

/-- Serialize already-rendered object members, comma separated, each as
`"key":value`. -/
def joinMembers : List (Str × Str) → Str
  | [] => []
  | [(k, cv)] => 34 :: escStr k ++ [34, 58] ++ cv
  | (k, cv) :: r => 34 :: escStr k ++ [34, 58] ++ cv ++ 44 :: joinMembers r

mutual

/-- Modelled from the spec: CanonicalEncoder (section 4.1) — deterministic
serialization with object keys sorted by codepoint, no whitespace.  Stands
in for the repository's `json_canonicalize` serializer, which is not under
`src/` (here producing codepoints; the byte form adds UTF-8). -/
def canonV : Json → Str
  | .null => [110, 117, 108, 108]
  | .bool true => [116, 114, 117, 101]
  | .bool false => [102, 97, 108, 115, 101]
  | .num n => canonNum n
  | .str s => 34 :: escStr s ++ [34]
  | .arr l => 91 :: canonArr l ++ [93]
  | .obj m => 123 :: joinMembers (List.insertionSort pairLe (canonMembers m)) ++ [125]

def canonArr : List Json → Str
  | [] => []
  | [v] => canonV v
  | v :: r => canonV v ++ 44 :: canonArr r

def canonMembers : List (Str × Json) → List (Str × Str)
  | [] => []
  | (k, v) :: r => (k, canonV v) :: canonMembers r

end

section SanityChecks

example : strConv "a.b" = [97, 46, 98] := rfl

example : splitOn 46 (strConv "a.b") = [[97], [98]] := rfl

example : canonV (.obj [(strConv "b", .num 1), (strConv "a", .null)]) =
    strConv "\x7b\"a\":null,\"b\":1\x7d" := rfl

example : jeq (.arr [.num 3]) (.arr [.num 3]) = true := rfl

end SanityChecks

/-- Modelled from the spec: TransportCodec encode alphabet (section 4.2,
standard base64url).  Stands in for `base64.urlsafe_b64encode`, which the
source calls from the standard library. -/
def b64EncChar (i : Nat) : Nat :=
  if i < 26 then 65 + i
  else if i < 52 then 97 + (i - 26)
  else if i < 62 then 48 + (i - 52)
  else if i = 62 then 45
  else 95

/-- Modelled from the spec: TransportCodec encode (section 4.2) — base64url
with `=` padding to a multiple of four characters. -/
def b64Encode : List Nat → Str
  | [] => []
  | [a] => [b64EncChar (a / 4), b64EncChar (a % 4 * 16), 61, 61]
  | [a, b] => [b64EncChar (a / 4), b64EncChar (a % 4 * 16 + b / 16), b64EncChar (b % 16 * 4), 61]
  | a :: b :: c :: rest =>
      b64EncChar (a / 4) :: b64EncChar (a % 4 * 16 + b / 16) ::
      b64EncChar (b % 16 * 4 + c / 64) :: b64EncChar (c % 64) :: b64Encode rest

/-- Base64url alphabet value of a character. -/
def b64DecChar (c : Nat) : Option Nat :=
  if 65 ≤ c ∧ c ≤ 90 then some (c - 65)
  else if 97 ≤ c ∧ c ≤ 122 then some (c - 97 + 26)
  else if 48 ≤ c ∧ c ≤ 57 then some (c - 48 + 52)
  else if c = 45 then some 62
  else if c = 95 then some 63
  else none

/-- Modelled from the spec: TransportCodec decode (section 4.2) — accepts
padded base64url in blocks of four characters, fails on characters outside
the alphabet or a length that is not a multiple of four.  Stands in for
`base64.urlsafe_b64decode`. -/
def b64Decode : Str → Except PyErr (List Nat)
  | [] => .ok []
  | a :: b :: c :: d :: rest =>
    (b64DecChar a).elim (.error .b64Error) fun x =>
    (b64DecChar b).elim (.error .b64Error) fun y =>
    if c = 61 then
      if d = 61 ∧ rest = [] then .ok [x * 4 + y / 16] else .error .b64Error
    else
      (b64DecChar c).elim (.error .b64Error) fun z =>
      if d = 61 then
        if rest = [] then .ok [x * 4 + y / 16, y % 16 * 16 + z / 4] else .error .b64Error
      else
        (b64DecChar d).elim (.error .b64Error) fun w =>
        Except.map (fun tail => (x * 4 + y / 16) :: (y % 16 * 16 + z / 4) :: (z % 4 * 64 + w) :: tail)
          (b64Decode rest)
  | _ => .error .b64Error

/-- Modelled from the spec: section 4.2 — re-pad unpadded base64url input to
a multiple of four before decoding (pad length `(4 - len mod 4) mod 4`).
Stands in for `src.util.pad_base64`, repository code that is not under
`src/`. -/
def pad_base64 (s : Str) : Str := s ++ List.replicate ((4 - s.length % 4) % 4) 61

/-- Python `str.replace` of `=` with the empty string. -/
def stripEq (s : Str) : Str := s.filter (fun c => c != 61)

/-- UTF-8 bytes of one Unicode scalar value. -/
def utf8EncChar (c : Nat) : List Nat :=
  if c < 128 then [c]
  else if c < 2048 then [192 + c / 64, 128 + c % 64]
  else if c < 65536 then [224 + c / 4096, 128 + c / 64 % 64, 128 + c % 64]
  else [240 + c / 262144, 128 + c / 4096 % 64, 128 + c / 64 % 64, 128 + c % 64]

/-- Modelled from the spec: the byte serialization of canonical text — UTF-8
encoding, standing in for Python's `str.encode`. -/
def utf8Encode : Str → List Nat
  | [] => []
  | c :: r => utf8EncChar c ++ utf8Encode r

mutual

/-- Modelled from the spec: strict UTF-8 decoding, standing in for Python's
`bytes.decode("utf-8")` — rejects truncated or malformed sequences, overlong
encodings, surrogates and out-of-range values. -/
def utf8Decode : List Nat → Except PyErr Str
  | [] => .ok []
  | b :: r =>
    if b < 128 then Except.map (fun s => b :: s) (utf8Decode r)
    else if b < 194 then .error .utf8Error
    else if b < 224 then utf8Cont2 b r
    else if b < 240 then utf8Cont3 b r
    else if b < 245 then utf8Cont4 b r
    else .error .utf8Error

/-- Continuation bytes of a two-byte sequence. -/
def utf8Cont2 (b : Nat) : List Nat → Except PyErr Str
  | b2 :: r2 =>
    if 128 ≤ b2 ∧ b2 < 192 then
      Except.map (fun s => ((b - 192) * 64 + (b2 - 128)) :: s) (utf8Decode r2)
    else .error .utf8Error
  | _ => .error .utf8Error

/-- Continuation bytes of a three-byte sequence, with overlong and
surrogate rejection. -/
def utf8Cont3 (b : Nat) : List Nat → Except PyErr Str
  | b2 :: b3 :: r2 =>
    if (128 ≤ b2 ∧ b2 < 192) ∧ (128 ≤ b3 ∧ b3 < 192) then
      if 2048 ≤ (b - 224) * 4096 + (b2 - 128) * 64 + (b3 - 128) ∧
          ¬(55296 ≤ (b - 224) * 4096 + (b2 - 128) * 64 + (b3 - 128) ∧
            (b - 224) * 4096 + (b2 - 128) * 64 + (b3 - 128) < 57344) then
        Except.map (fun s => ((b - 224) * 4096 + (b2 - 128) * 64 + (b3 - 128)) :: s)
          (utf8Decode r2)
      else .error .utf8Error
    else .error .utf8Error
  | _ => .error .utf8Error

/-- Continuation bytes of a four-byte sequence, with overlong and range
rejection. -/
def utf8Cont4 (b : Nat) : List Nat → Except PyErr Str
  | b2 :: b3 :: b4 :: r2 =>
    if (128 ≤ b2 ∧ b2 < 192) ∧ (128 ≤ b3 ∧ b3 < 192) ∧ (128 ≤ b4 ∧ b4 < 192) then
      if 65536 ≤ (b - 240) * 262144 + (b2 - 128) * 4096 + (b3 - 128) * 64 + (b4 - 128) ∧
          (b - 240) * 262144 + (b2 - 128) * 4096 + (b3 - 128) * 64 + (b4 - 128) < 1114112 then
        Except.map
          (fun s => ((b - 240) * 262144 + (b2 - 128) * 4096 + (b3 - 128) * 64 + (b4 - 128)) :: s)
          (utf8Decode r2)
      else .error .utf8Error
    else .error .utf8Error
  | _ => .error .utf8Error

end

/-- JSON whitespace. -/
def isWs (c : Nat) : Bool := c == 32 || c == 9 || c == 10 || c == 13

def skipWs : Str → Str
  | [] => []
  | c :: r => if isWs c then skipWs r else c :: r

/-- ASCII decimal digit. -/
def isDigit (c : Nat) : Bool := decide (48 ≤ c) && decide (c ≤ 57)

/-- Hexadecimal value of a character, either case. -/
def hexVal (c : Nat) : Option Nat :=
  if 48 ≤ c ∧ c ≤ 57 then some (c - 48)
  else if 97 ≤ c ∧ c ≤ 102 then some (c - 87)
  else if 65 ≤ c ∧ c ≤ 70 then some (c - 55)
  else none

/-- Merge each adjacent high/low surrogate pair, left to right, into the
supplementary-plane codepoint it denotes.  Composed with the escape scanner
below this reproduces the greedy `\uXXXX` surrogate pairing of `json.loads`
(surrogates can only arise from escapes, since the decoded UTF-8 input never
contains raw ones). -/
def combineSurr : Str → Str
  | [] => []
  | [c] => [c]
  | c :: c2 :: r2 =>
    if (55296 ≤ c ∧ c < 56320) ∧ (56320 ≤ c2 ∧ c2 < 57344) then
      (65536 + (c - 55296) * 1024 + (c2 - 56320)) :: combineSurr r2
    else c :: combineSurr (c2 :: r2)

/-- Combined value of four hexadecimal digit characters. -/
def hex4 (h1 h2 h3 h4 : Nat) : Option Nat :=
  (hexVal h1).elim none fun x =>
  (hexVal h2).elim none fun y =>
  (hexVal h3).elim none fun z =>
  (hexVal h4).elim none fun w =>
  some (x * 4096 + y * 256 + z * 16 + w)

/-- Modelled from the spec: the string scanner of `json.loads` — reads the
body of a JSON string after the opening quote, handling the standard
escapes and `\uXXXX` (each escape yielding one codepoint; surrogate pairs
are merged afterwards by `combineSurr`) and rejecting raw control
characters. -/
def parseStrBody : Str → Except PyErr (Str × Str)
  | [] => .error .jsonError
  | c :: r =>
    if c = 34 then .ok ([], r)
    else if c = 92 then
      match r with
      | [] => .error .jsonError
      | e :: r2 =>
        if e = 34 ∨ e = 92 ∨ e = 47 then
          Except.map (fun p => (e :: p.1, p.2)) (parseStrBody r2)
        else if e = 98 then Except.map (fun p => (8 :: p.1, p.2)) (parseStrBody r2)
        else if e = 102 then Except.map (fun p => (12 :: p.1, p.2)) (parseStrBody r2)
        else if e = 110 then Except.map (fun p => (10 :: p.1, p.2)) (parseStrBody r2)
        else if e = 114 then Except.map (fun p => (13 :: p.1, p.2)) (parseStrBody r2)
        else if e = 116 then Except.map (fun p => (9 :: p.1, p.2)) (parseStrBody r2)
        else if e = 117 then
          match r2 with
          | h1 :: h2 :: h3 :: h4 :: r3 =>
            (hex4 h1 h2 h3 h4).elim (.error .jsonError) fun v =>
              Except.map (fun p => (v :: p.1, p.2)) (parseStrBody r3)
          | _ => .error .jsonError
        else .error .jsonError
    else if c < 32 then .error .jsonError
    else Except.map (fun p => (c :: p.1, p.2)) (parseStrBody r)

/-- Longest digit span at the head of the input. -/
def spanDigits : Str → (Str × Str)
  | [] => ([], [])
  | c :: r =>
    if isDigit c then
      let p := spanDigits (r : Str)
      (c :: p.1, p.2)
    else ([], c :: r)

/-- Numeric value of a digit-character string. -/
def digitsVal (ds : Str) : Nat := ds.foldl (fun a c => a * 10 + (c - 48)) 0

/-- Modelled from the spec: the number scanner of `json.loads`, restricted
to the integer numbers of the model — an optional minus sign followed by at
least one digit. -/
def parseNum : Str → Except PyErr (Int × Str)
  | [] => .error .jsonError
  | c :: r =>
    if c = 45 then
      if (spanDigits r).1 = [] then .error .jsonError
      else .ok (-(digitsVal (spanDigits r).1 : Int), (spanDigits r).2)
    else
      if (spanDigits (c :: r)).1 = [] then .error .jsonError
      else .ok ((digitsVal (spanDigits (c :: r)).1 : Int), (spanDigits (c :: r)).2)

mutual

/-- Modelled from the spec: the value scanner of `json.loads` over the JSON
grammar of the model.  The family is fuelled to stay structural — every
mutual call strictly decreases the fuel, and the fuel picked by `jsonLoads`
always suffices; `parseVal` skips whitespace and dispatches on the first
character. -/
def parseVal : Nat → Str → Except PyErr (Json × Str)
  | 0, _ => .error .jsonError
  | fuel+1, s => parseTok fuel (skipWs s)

/-- Dispatch on the first character of whitespace-free input. -/
def parseTok : Nat → Str → Except PyErr (Json × Str)
  | 0, _ => .error .jsonError
  | fuel+1, s =>
    match s with
    | [] => .error .jsonError
    | c :: r =>
      if c = 110 then
        match r with
        | 117 :: 108 :: 108 :: r2 => .ok (.null, r2)
        | _ => .error .jsonError
      else if c = 116 then
        match r with
        | 114 :: 117 :: 101 :: r2 => .ok (.bool true, r2)
        | _ => .error .jsonError
      else if c = 102 then
        match r with
        | 97 :: 108 :: 115 :: 101 :: r2 => .ok (.bool false, r2)
        | _ => .error .jsonError
      else if c = 34 then
        Except.map (fun p => (Json.str (combineSurr p.1), p.2)) (parseStrBody r)
      else if c = 91 then parseArrBody fuel (skipWs r)
      else if c = 123 then parseObjBody fuel (skipWs r)
      else if c = 45 ∨ isDigit c then
        Except.map (fun p => (Json.num p.1, p.2)) (parseNum (c :: r))
      else .error .jsonError

/-- Contents of an array after the opening bracket (whitespace skipped). -/
def parseArrBody : Nat → Str → Except PyErr (Json × Str)
  | 0, _ => .error .jsonError
  | fuel+1, s =>
    match s with
    | [] => .error .jsonError
    | c :: r =>
      if c = 93 then .ok (.arr [], r)
      else Except.map (fun p => (Json.arr p.1, p.2)) (parseItems fuel (c :: r))

/-- One array item, then a separator. -/
def parseItems : Nat → Str → Except PyErr (List Json × Str)
  | 0, _ => .error .jsonError
  | fuel+1, s => do
    let p ← parseVal fuel s
    parseItemsSep fuel p.1 (skipWs p.2)

/-- After an array item: a comma continues the items, a bracket closes. -/
def parseItemsSep : Nat → Json → Str → Except PyErr (List Json × Str)
  | 0, _, _ => .error .jsonError
  | fuel+1, v, s =>
    match s with
    | [] => .error .jsonError
    | c :: r =>
      if c = 44 then Except.map (fun q => (v :: q.1, q.2)) (parseItems fuel r)
      else if c = 93 then .ok ([v], r)
      else .error .jsonError

/-- Contents of an object after the opening brace (whitespace skipped). -/
def parseObjBody : Nat → Str → Except PyErr (Json × Str)
  | 0, _ => .error .jsonError
  | fuel+1, s =>
    match s with
    | [] => .error .jsonError
    | c :: r =>
      if c = 125 then .ok (.obj [], r)
      else Except.map (fun p => (Json.obj p.1, p.2)) (parseMembers fuel (c :: r))

/-- One object member: a quoted key, a colon, a value, a separator. -/
def parseMembers : Nat → Str → Except PyErr (List (Str × Json) × Str)
  | 0, _ => .error .jsonError
  | fuel+1, s =>
    match s with
    | [] => .error .jsonError
    | c :: r =>
      if c = 34 then do
        let kp ← parseStrBody r
        parseMemberColon fuel (combineSurr kp.1) (skipWs kp.2)
      else .error .jsonError

/-- After a member key: a colon, then the value. -/
def parseMemberColon : Nat → Str → Str → Except PyErr (List (Str × Json) × Str)
  | 0, _, _ => .error .jsonError
  | fuel+1, k, s =>
    match s with
    | [] => .error .jsonError
    | c :: r =>
      if c = 58 then do
        let vp ← parseVal fuel r
        parseMembersSep fuel k vp.1 (skipWs vp.2)
      else .error .jsonError

/-- After an object member: a comma continues the members, a brace closes. -/
def parseMembersSep : Nat → Str → Json → Str → Except PyErr (List (Str × Json) × Str)
  | 0, _, _, _ => .error .jsonError
  | fuel+1, k, v, s =>
    match s with
    | [] => .error .jsonError
    | c :: r =>
      if c = 44 then Except.map (fun q => ((k, v) :: q.1, q.2)) (parseMembers fuel (skipWs r))
      else if c = 125 then .ok ([(k, v)], r)
      else .error .jsonError

end

/-- Modelled from the spec: `json.loads` — parse one JSON document and
require that nothing but whitespace follows it (the fuel is an internal
artifact of the model and always suffices). -/
def jsonLoads (s : Str) : Except PyErr Json := do
  let p ← parseVal (4 * s.length + 4) s
  if skipWs p.2 = [] then .ok p.1 else .error .jsonError

section SanityChecks2

example : b64Decode (pad_base64 (stripEq (b64Encode [104, 105, 33, 7]))) = .ok [104, 105, 33, 7] := rfl

example : utf8Decode (utf8Encode [104, 233, 8364, 128512]) = .ok [104, 233, 8364, 128512] := rfl

example : jsonLoads (strConv "\x7b\"a\": [1, -20, \"x\\u0041\"], \"b\": null\x7d") =
    .ok (.obj [(strConv "a", .arr [.num 1, .num (-20), .str (strConv "xA")]), (strConv "b", .null)]) := rfl

example : jsonLoads (canonV (.obj [(strConv "b", .bool true), (strConv "a", .num 7)])) =
    .ok (.obj [(strConv "a", .num 7), (strConv "b", .bool true)]) := rfl

end SanityChecks2

/-- Modelled from the spec: CanonicalEncoder (section 4.1) as byte output —
canonical text through UTF-8.  Stands in for the repository's
`canonicalize` (`json_canonicalize`), which is not under `src/`. -/
def canonicalize (v : Json) : List Nat := utf8Encode (canonV v)

/-- Result of `decode_jws` (payload still the raw second segment). -/
structure DecodedJws where
  header : Json
  payload : Str
  signature : Str
  data : Str

/-- Result of `decode_jwt` (payload parsed). -/
structure DecodedJwt where
  header : Json
  payload : Json
  signature : Str
  data : Str

/-- Source `decode_jws` (src/did_jwt/__init__.py lines 12-22): split on dots,
assert exactly three parts (a bare `assert`, hence `assertFail ""`), decode
and JSON-parse the header, keep the raw payload and signature segments, and
keep `data`, the first two segments joined with a dot. -/
def decode_jws (jws : Str) : Except PyErr DecodedJws :=
  match splitOn 46 jws with
  | [p0, p1, p2] =>
    match b64Decode (pad_base64 p0) with
    | .error e => .error e
    | .ok hb =>
      match utf8Decode hb with
      | .error e => .error e
      | .ok hs =>
        match jsonLoads hs with
        | .error e => .error e
        | .ok header => .ok ⟨header, p1, p2, p0 ++ 46 :: p1⟩
  | _ => .error (.assertFail "")

/-- Source `decode_jwt` (lines 25-34): `decode_jws`, then decode and
JSON-parse the payload segment. -/
def decode_jwt (jwt : Str) : Except PyErr DecodedJwt :=
  match decode_jws jwt with
  | .error e => .error e
  | .ok jws =>
    match b64Decode (pad_base64 jws.payload) with
    | .error e => .error e
    | .ok pb =>
      match utf8Decode pb with
      | .error e => .error e
      | .ok ps =>
        match jsonLoads ps with
        | .error e => .error e
        | .ok payload => .ok ⟨jws.header, payload, jws.signature, jws.data⟩

/-- Source `create_jws` (lines 37-63): canonicalize and base64url-encode the
payload and the header with padding stripped, join them with a dot into the
signing input, call the signer on it once, strip `=` from the signature and
append it after a second dot.  The signer capability is a function
parameter (its `await` is flattened). -/
def create_jws (payload : List (Str × Json)) (signer : Str → Str)
    (header : List (Str × Json)) : Str :=
  let encoded_payload := stripEq (b64Encode (canonicalize (.obj payload)))
  let encoded_header := stripEq (b64Encode (canonicalize (.obj header)))
  let signing_input := encoded_header ++ 46 :: encoded_payload
  let signature := stripEq (signer signing_input)
  signing_input ++ 46 :: signature

/-- Options of `create_jwt` (the Python `options` dict with its `issuer` and
`signer` entries). -/
structure CreateOptions where
  issuer : Json
  signer : Str → Str

/-- Source `create_jwt` (lines 66-90): `iat` is the current unix time
(passed in as `now`), `exp = iat + 300`; the full payload starts from these
timestamps, overlays the caller payload and then forces
`iss = options.issuer`; the result is delegated to `create_jws`. -/
def create_jwt (payload : List (Str × Json)) (options : CreateOptions)
    (header : List (Str × Json)) (now : Int) : Str :=
  let EXPIRATION_TIME : Int := 300
  let iat := now
  let timestamps : List (Str × Json) :=
    [(strConv "iat", .num iat), (strConv "exp", .num (iat + EXPIRATION_TIME))]
  let full_payload := dictSet (dictUpdate timestamps payload) (strConv "iss") options.issuer
  create_jws full_payload options.signer header

/-- Python `==` between a `dict.get` result and another value (`None`
compares unequal to every JSON value). -/
def optEq (o : Option Json) (v : Json) : Bool :=
  match o with
  | some w => jeq w v
  | none => false

/-- Python attribute access `value.get(key)` on a JSON value: works on
objects (dicts), raises `AttributeError` on anything else (including
`None`). -/
def pyGetJ (v : Json) (k : Str) : Except PyErr (Option Json) :=
  match v with
  | .obj m => .ok (pyGet m k)
  | _ => .error .attributeError

/-- Python subscript `value[0]`: first element of a list (IndexError when
empty), first character of a string (IndexError when empty), `KeyError` on a
dict without the key `0`, `TypeError` on anything else. -/
def pySub0 (v : Json) : Except PyErr Json :=
  match v with
  | .arr (a :: _) => .ok a
  | .arr [] => .error .indexError
  | .str (c :: _) => .ok (.str [c])
  | .str [] => .error .indexError
  | .obj _ => .error .keyError
  | _ => .error .typeError

/-- Numeric value of a Python object in an integer comparison: ints are
themselves, bools count as 0/1, everything else raises `TypeError`. -/
def jsonInt (v : Json) : Except PyErr Int :=
  match v with
  | .num n => .ok n
  | .bool b => .ok (if b then 1 else 0)
  | _ => .error .typeError

/-- The characters of `s` before the first `#` — Python
`s.split("#")[0]`. -/
def splitHash0 (s : Str) : Str := s.takeWhile (fun c => c != 35)

/-- Source `verify_jwt` lines 102-119: the subject-DID determination.
Asserts a present issuer; for the self-issued issuer asserts a present
subject, uses it as the DID unless `sub_jwk` is present, in which case the
DID is `header.get("kid").split("#")[0]` (an `AttributeError` when `kid` is
missing or not a string); any other issuer is itself the DID. -/
def subject_did (header payload : Json) : Except PyErr Json :=
  match pyGetJ payload (strConv "iss") with
  | .error e => .error e
  | .ok issOpt =>
    if issOpt.isNone then .error (.assertFail "Missing issuer")
    else if optEq issOpt (.str (strConv "https://self-issued.me/v2")) then
      match pyGetJ payload (strConv "sub") with
      | .error e => .error e
      | .ok subOpt =>
        if subOpt.isNone then .error (.assertFail "Missing subject")
        else
          match pyGetJ payload (strConv "sub_jwk") with
          | .error e => .error e
          | .ok subJwkOpt =>
            match subJwkOpt with
            | none => .ok (subOpt.getD .null)
            | some _ =>
              match pyGetJ header (strConv "kid") with
              | .error e => .error e
              | .ok kidOpt =>
                match kidOpt with
                | some (.str ks) => .ok (.str (splitHash0 ks))
                | _ => .error .attributeError
    else .ok (issOpt.getD .null)

/-- Source `verify_jwt` lines 121-125: the authenticator is
`did_resolution_result.get("didDocument").get("verificationMethod")[0]`
(`AttributeError` when `didDocument` is missing, the subscript errors of
`pySub0` otherwise). -/
def authenticator_of (did_resolution_result : Json) : Except PyErr Json :=
  match pyGetJ did_resolution_result (strConv "didDocument") with
  | .error e => .error e
  | .ok ddOpt =>
    match ddOpt with
    | none => .error .attributeError
    | some dd =>
      match pyGetJ dd (strConv "verificationMethod") with
      | .error e => .error e
      | .ok vmOpt =>
        match vmOpt with
        | none => .error .typeError
        | some vm => pySub0 vm

/-- Source `verify_jwt` lines 132-148: temporal validation with a 300-second
skew — fetch `exp` (assert present), fetch `iat` (assert present), assert
`iat > now + skew` is false, assert `exp <= now - skew` is false. -/
def validate_time (payload : Json) (now : Int) : Except PyErr Unit :=
  let skew_time : Int := 300
  let now_skewed := now + skew_time
  match pyGetJ payload (strConv "exp") with
  | .error e => .error e
  | .ok expOpt =>
    if expOpt.isNone then .error (.assertFail "Missing expiration time")
    else
      match pyGetJ payload (strConv "iat") with
      | .error e => .error e
      | .ok iatOpt =>
        if iatOpt.isNone then .error (.assertFail "Missing issue time")
        else
          match jsonInt (iatOpt.getD .null) with
          | .error e => .error e
          | .ok iat =>
            if iat > now_skewed then .error (.assertFail "Issue time is in the future")
            else
              match jsonInt (expOpt.getD .null) with
              | .error e => .error e
              | .ok exp =>
                if exp ≤ now - skew_time then .error (.assertFail "Expired JWT")
                else .ok ()

/-- Source `verify_jwt` lines 150-157: audience validation — only when
`payload.get("aud")` is truthy and `config.get("audience")` is truthy;
membership for a list audience, equality otherwise, asserting with message
"Invalid audience". -/
def validate_aud (payload : Json) (audience : Option Json) : Except PyErr Unit :=
  match pyGetJ payload (strConv "aud") with
  | .error e => .error e
  | .ok audOpt =>
    if truthyOpt audOpt then
      if truthyOpt audience then
        match audience.getD .null with
        | .arr l =>
          if l.any (fun v => jeq (audOpt.getD .null) v) then .ok ()
          else .error (.assertFail "Invalid audience")
        | a =>
          if jeq (audOpt.getD .null) a then .ok ()
          else .error (.assertFail "Invalid audience")
      else .ok ()
    else .ok ()

/-- Verification config: the `audience` entry of the config dict (`none`
when unset; a stored JSON null also behaves as unset through `truthyOpt`). -/
structure VerifyConfig where
  audience : Option Json

/-- Successful result of `verify_jwt`: the tuple
`(payload, did_resolution_result, did, authenticator, jwt)`. -/
structure VerifyResult where
  payload : Json
  didResolutionResult : Json
  did : Json
  authenticator : Json
  jwt : Str

/-- Continuation of `verify_jwt` after the subject DID is known (lines
121-157 and the final return): resolve the DID, take the first verification
method, verify the signature over `data`, assert the result, then validate
the temporal and audience claims. -/
def verify_tail (d : DecodedJwt) (did : Json) (config : VerifyConfig)
    (resolve : Json → VerifyConfig → Except PyErr Json)
    (verifyES : Str → Str → Json → Except PyErr Bool)
    (jwt : Str) (now : Int) : Except PyErr VerifyResult :=
  match resolve did config with
  | .error e => .error e
  | .ok did_resolution_result =>
    match authenticator_of did_resolution_result with
    | .error e => .error e
    | .ok authenticator =>
      match verifyES d.data d.signature authenticator with
      | .error e => .error e
      | .ok verify =>
        if verify then
          match validate_time d.payload now with
          | .error e => .error e
          | .ok _ =>
            match validate_aud d.payload config.audience with
            | .error e => .error e
            | .ok _ => .ok ⟨d.payload, did_resolution_result, did, authenticator, jwt⟩
        else .error (.assertFail "Signature verification failed")

/-- Source `verify_jwt` (lines 93-159): decode the token, determine the
subject DID, then resolve, pick the authenticator, verify the signature and
validate the claims.  The resolver and verifier capabilities are function
parameters (their `await` is flattened); `now` is the wall clock
(`math.floor(time.time())`). -/
def verify_jwt (jwt : Str) (config : VerifyConfig)
    (resolve : Json → VerifyConfig → Except PyErr Json)
    (verifyES : Str → Str → Json → Except PyErr Bool)
    (now : Int) : Except PyErr VerifyResult :=
  match decode_jwt jwt with
  | .error e => .error e
  | .ok d =>
    match subject_did d.header d.payload with
    | .error e => .error e
    | .ok did => verify_tail d did config resolve verifyES jwt now

section SanityChecks3

example :
    create_jwt [(strConv "a", .num 1)]
      ⟨.str (strConv "did:ex:i"), fun _ => strConv "SIG"⟩
      [(strConv "alg", .str (strConv "ES256K"))] 1000 =
    strConv "eyJhbGciOiJFUzI1NksifQ.eyJhIjoxLCJleHAiOjEzMDAsImlhdCI6MTAwMCwiaXNzIjoiZGlkOmV4OmkifQ.SIG" := by
  rfl

end SanityChecks3

section BasicLemmas

theorem skipWs_not_ws (c : Nat) (r : Str) (h : isWs c = false) : skipWs (c :: r) = c :: r := by
  simp [skipWs, h]

theorem splitOn_ne_nil (sep : Nat) (s : Str) : splitOn sep s ≠ [] := by
  cases s with
  | nil => simp [splitOn]
  | cons c r =>
    simp only [splitOn]
    cases h : splitOn sep r with
    | nil => simp
    | cons p ps =>
      dsimp only
      split <;> simp

theorem splitOn_no_sep (sep : Nat) (s : Str) (h : sep ∉ s) : splitOn sep s = [s] := by
  induction s with
  | nil => rfl
  | cons c r ih =>
    simp only [List.mem_cons, not_or] at h
    simp [splitOn, ih h.2, Ne.symm h.1]

theorem splitOn_append (sep : Nat) (a r : Str) (h : sep ∉ a) :
    splitOn sep (a ++ sep :: r) = a :: splitOn sep r := by
  induction a with
  | nil =>
    simp only [List.nil_append, splitOn]
    cases hs : splitOn sep r with
    | nil => exact absurd hs (splitOn_ne_nil sep r)
    | cons p ps => simp
  | cons c a ih =>
    simp only [List.mem_cons, not_or] at h
    simp only [List.cons_append, splitOn, List.append_eq]
    rw [ih h.2]
    simp [Ne.symm h.1]

theorem natDigitsAux_irrel : ∀ f1 n, n < f1 → ∀ f2, n < f2 → natDigitsAux f1 n = natDigitsAux f2 n := by
  intro f1
  induction f1 with
  | zero => omega
  | succ f ih =>
    intro n h f2 h2
    match f2, h2 with
    | g+1, h2 =>
      simp only [natDigitsAux]
      split
      · rfl
      · rw [ih (n / 10) (by omega) g (by omega)]

theorem natDigits_eq (n : Nat) :
    natDigits n = if n < 10 then [48 + n] else natDigits (n / 10) ++ [48 + n % 10] := by
  show natDigitsAux (n + 1) n = _
  simp only [natDigitsAux]
  split
  · rfl
  · rw [natDigitsAux_irrel n (n / 10) (by omega) (n / 10 + 1) (by omega)]
    rfl

theorem natDigits_ne_nil (n : Nat) : natDigits n ≠ [] := by
  rw [natDigits_eq]
  split <;> simp

theorem natDigits_bounds (n : Nat) : ∀ c ∈ natDigits n, 48 ≤ c ∧ c ≤ 57 := by
  induction n using Nat.strong_induction_on with
  | _ n ih =>
    rw [natDigits_eq]
    split
    · intro c hc
      simp only [List.mem_singleton] at hc
      omega
    · intro c hc
      rw [List.mem_append] at hc
      rcases hc with hc | hc
      · exact ih (n / 10) (by omega) c hc
      · simp only [List.mem_singleton] at hc
        omega

theorem natDigits_isDigit (n : Nat) : ∀ c ∈ natDigits n, isDigit c = true := by
  intro c hc
  have := natDigits_bounds n c hc
  simp only [isDigit, Bool.and_eq_true, decide_eq_true_eq]
  omega

theorem digitsVal_append_one (ds : Str) (d : Nat) :
    digitsVal (ds ++ [d]) = digitsVal ds * 10 + (d - 48) := by
  simp [digitsVal, List.foldl_append]

theorem digitsVal_natDigits (n : Nat) : digitsVal (natDigits n) = n := by
  induction n using Nat.strong_induction_on with
  | _ n ih =>
    rw [natDigits_eq]
    split
    · simp [digitsVal]
    · rw [digitsVal_append_one, ih (n / 10) (by omega)]
      omega

/-- Head of the input is a decimal digit. -/
def headDigit : Str → Bool
  | [] => false
  | c :: _ => isDigit c

theorem spanDigits_append (ds rest : Str) (hds : ∀ c ∈ ds, isDigit c = true)
    (hr : headDigit rest = false) : spanDigits (ds ++ rest) = (ds, rest) := by
  induction ds with
  | nil =>
    cases rest with
    | nil => rfl
    | cons c r =>
      simp only [headDigit] at hr
      simp [spanDigits, hr]
  | cons c ds ih =>
    have hc : isDigit c = true := hds c (by simp)
    simp [spanDigits, hc, ih (fun x hx => hds x (by simp [hx]))]

theorem parseNum_natDigits (m : Nat) (rest : Str) (hr : headDigit rest = false) :
    parseNum (natDigits m ++ rest) = .ok ((m : Int), rest) := by
  have key : spanDigits (natDigits m ++ rest) = (natDigits m, rest) :=
    spanDigits_append _ _ (natDigits_isDigit _) hr
  cases h : natDigits m with
  | nil => exact absurd h (natDigits_ne_nil _)
  | cons d ds =>
    have hd : 48 ≤ d ∧ d ≤ 57 := natDigits_bounds _ d (by rw [h]; simp)
    rw [h] at key
    rw [List.cons_append]
    simp only [parseNum]
    rw [if_neg (by omega)]
    have key2 : spanDigits (d :: (ds ++ rest)) = (d :: ds, rest) := by
      rw [← List.cons_append]; exact key
    rw [key2]
    dsimp only
    rw [← h, digitsVal_natDigits, if_neg (natDigits_ne_nil m)]

theorem parseNum_canonNum (n : Int) (rest : Str) (hr : headDigit rest = false) :
    parseNum (canonNum n ++ rest) = .ok (n, rest) := by
  unfold canonNum
  split
  · rename_i hn
    rw [List.cons_append]
    simp only [parseNum, if_true]
    have key : spanDigits (natDigits (-n).toNat ++ rest) = (natDigits (-n).toNat, rest) :=
      spanDigits_append _ _ (natDigits_isDigit _) hr
    rw [key]
    rw [if_neg (natDigits_ne_nil _), digitsVal_natDigits]
    rw [show -(((-n).toNat : Nat) : Int) = n by omega]
  · rename_i hn
    rw [parseNum_natDigits _ _ hr]
    rw [show ((n.toNat : Nat) : Int) = n by omega]

end BasicLemmas


section CodecLemmas

theorem hexVal_hexDigit : ∀ x < 16, hexVal (hexDigit x) = some x := by decide

theorem hex4_00 (c : Nat) (h : c < 32) :
    hex4 48 48 (hexDigit (c / 16)) (hexDigit (c % 16)) = some c := by
  have e1 := hexVal_hexDigit (c / 16) (by omega)
  have e2 := hexVal_hexDigit (c % 16) (by omega)
  simp only [hex4, e1, e2]
  simp only [hexVal]
  norm_num
  omega

theorem parseStrBody_escape (s rest : Str) :
    parseStrBody (escStr s ++ 34 :: rest) = .ok (s, rest) := by
  induction s with
  | nil =>
    show parseStrBody (34 :: rest) = .ok ([], rest)
    rw [parseStrBody.eq_def]
    norm_num
  | cons c s ih =>
    simp only [escStr, List.append_assoc]
    unfold escChar
    split
    · rename_i h34
      subst h34
      show parseStrBody (92 :: 34 :: (escStr s ++ 34 :: rest)) = .ok (34 :: s, rest)
      rw [parseStrBody.eq_def]
      norm_num
      rw [ih]
      rfl
    · split
      · rename_i hne34 h92
        subst h92
        show parseStrBody (92 :: 92 :: (escStr s ++ 34 :: rest)) = .ok (92 :: s, rest)
        rw [parseStrBody.eq_def]
        norm_num
        rw [ih]
        rfl
      · split
        · rename_i hne34 hne92 hlt
          show parseStrBody (92 :: 117 :: 48 :: 48 :: hexDigit (c / 16) :: hexDigit (c % 16) ::
              (escStr s ++ 34 :: rest)) = .ok (c :: s, rest)
          rw [parseStrBody.eq_def]
          norm_num
          rw [hex4_00 c hlt]
          simp only [Option.elim]
          rw [ih]
          rfl
        · rename_i hne34 hne92 hge
          show parseStrBody (c :: (escStr s ++ 34 :: rest)) = .ok (c :: s, rest)
          rw [parseStrBody.eq_def]
          dsimp only
          rw [if_neg hne34, if_neg hne92, if_neg (by omega)]
          rw [ih]
          rfl

theorem combineSurr_id (s : Str) (h : ∀ c ∈ s, ¬(55296 ≤ c ∧ c < 56320)) :
    combineSurr s = s := by
  induction s with
  | nil => rfl
  | cons c r ih =>
    cases r with
    | nil => rfl
    | cons c2 r2 =>
      rw [combineSurr, if_neg (by
        intro hc
        exact h c (by simp) hc.1)]
      rw [ih (fun x hx => h x (by simp [hx]))]

theorem validScalar_spec (c : Nat) (h : validScalar c = true) :
    c < 1114112 ∧ ¬(55296 ≤ c ∧ c < 57344) := by
  simpa only [validScalar, decide_eq_true_eq] using h

theorem validStr_no_high (s : Str) (h : validStr s = true) :
    ∀ c ∈ s, ¬(55296 ≤ c ∧ c < 56320) := by
  intro c hc hsur
  have := validScalar_spec c ((List.all_eq_true.mp h) c hc)
  omega

end CodecLemmas

section Utf8B64Lemmas

theorem utf8Decode_encChar (c : Nat) (hv : validScalar c = true) (rest : List Nat) :
    utf8Decode (utf8EncChar c ++ rest) = Except.map (fun s => c :: s) (utf8Decode rest) := by
  have hc := validScalar_spec c hv
  unfold utf8EncChar
  split
  · rename_i h1
    simp only [List.cons_append, List.nil_append]
    rw [utf8Decode.eq_def]
    dsimp only
    rw [if_pos h1]
  · split
    · rename_i h1 h2
      simp only [List.cons_append, List.nil_append]
      rw [utf8Decode.eq_def]
      dsimp only
      rw [if_neg (by omega), if_neg (by omega), if_pos (by omega)]
      rw [utf8Cont2.eq_def]
      dsimp only
      rw [if_pos (by omega)]
      have hval : (192 + c / 64 - 192) * 64 + (128 + c % 64 - 128) = c := by omega
      rw [hval]
    · split
      · rename_i h1 h2 h3
        simp only [List.cons_append, List.nil_append]
        rw [utf8Decode.eq_def]
        dsimp only
        rw [if_neg (by omega), if_neg (by omega), if_neg (by omega), if_pos (by omega)]
        rw [utf8Cont3.eq_def]
        dsimp only
        rw [if_pos (by constructor <;> omega)]
        rw [if_pos (by constructor <;> omega)]
        have hval : (224 + c / 4096 - 224) * 4096 + (128 + c / 64 % 64 - 128) * 64 +
            (128 + c % 64 - 128) = c := by omega
        rw [hval]
      · rename_i h1 h2 h3
        simp only [List.cons_append, List.nil_append]
        rw [utf8Decode.eq_def]
        dsimp only
        rw [if_neg (by omega), if_neg (by omega), if_neg (by omega), if_neg (by omega),
          if_pos (by omega)]
        rw [utf8Cont4.eq_def]
        dsimp only
        rw [if_pos (by refine ⟨?_, ?_, ?_⟩ <;> omega)]
        rw [if_pos (by constructor <;> omega)]
        have hval : (240 + c / 262144 - 240) * 262144 + (128 + c / 4096 % 64 - 128) * 4096 +
            (128 + c / 64 % 64 - 128) * 64 + (128 + c % 64 - 128) = c := by omega
        rw [hval]

theorem utf8_roundtrip (s : Str) (h : validStr s = true) :
    utf8Decode (utf8Encode s) = .ok s := by
  induction s with
  | nil => rfl
  | cons c r ih =>
    simp only [validStr, List.all_cons, Bool.and_eq_true] at h
    simp only [utf8Encode]
    rw [utf8Decode_encChar c h.1, ih h.2]
    rfl

theorem utf8EncChar_lt256 (c : Nat) (hv : validScalar c = true) :
    ∀ b ∈ utf8EncChar c, b < 256 := by
  have hc := (validScalar_spec c hv).1
  unfold utf8EncChar
  split
  · intro b hb
    simp only [List.mem_singleton] at hb
    omega
  · split
    · intro b hb
      simp only [List.mem_cons, List.mem_singleton, List.not_mem_nil, or_false] at hb
      rcases hb with hb | hb <;> omega
    · split
      · intro b hb
        simp only [List.mem_cons, List.mem_singleton, List.not_mem_nil, or_false] at hb
        rcases hb with hb | hb | hb <;> omega
      · intro b hb
        simp only [List.mem_cons, List.mem_singleton, List.not_mem_nil, or_false] at hb
        have h4 : c / 262144 < 5 := by omega
        rcases hb with hb | hb | hb | hb <;> omega

theorem utf8Encode_lt256 (s : Str) (h : validStr s = true) :
    ∀ b ∈ utf8Encode s, b < 256 := by
  induction s with
  | nil => simp [utf8Encode]
  | cons c r ih =>
    simp only [validStr, List.all_cons, Bool.and_eq_true] at h
    intro b hb
    simp only [utf8Encode, List.mem_append] at hb
    rcases hb with hb | hb
    · exact utf8EncChar_lt256 c h.1 b hb
    · exact ih h.2 b hb

theorem b64DecChar_encChar : ∀ i < 64, b64DecChar (b64EncChar i) = some i := by decide

theorem b64EncChar_ne61 (i : Nat) : b64EncChar i ≠ 61 := by
  unfold b64EncChar
  split_ifs <;> omega

theorem b64EncChar_ne46 (i : Nat) : b64EncChar i ≠ 46 := by
  unfold b64EncChar
  split_ifs <;> omega

theorem stripEq_cons_enc (i : Nat) (s : Str) :
    stripEq (b64EncChar i :: s) = b64EncChar i :: stripEq s := by
  simp only [stripEq, List.filter_cons]
  rw [if_pos (by simp [b64EncChar_ne61 i])]

theorem stripEq_b64Encode : ∀ bs : List Nat, pad_base64 (stripEq (b64Encode bs)) = b64Encode bs
  | [] => rfl
  | [a] => by
    simp only [b64Encode, stripEq_cons_enc]
    rfl
  | [a, b] => by
    simp only [b64Encode, stripEq_cons_enc]
    rfl
  | a :: b :: c :: rest => by
    have ih := stripEq_b64Encode rest
    simp only [b64Encode, stripEq_cons_enc]
    simp only [pad_base64, List.length_cons] at ih ⊢
    have hmod : ∀ L : Nat, (4 - (L + 1 + 1 + 1 + 1) % 4) % 4 = (4 - L % 4) % 4 := by omega
    rw [hmod]
    simp only [List.cons_append, List.append_assoc] at ih ⊢
    rw [ih]

theorem b64Decode_b64Encode : ∀ bs : List Nat, (∀ x ∈ bs, x < 256) →
    b64Decode (b64Encode bs) = .ok bs
  | [], _ => rfl
  | [a], h => by
    have ha : a < 256 := h a (by simp)
    have d1 := b64DecChar_encChar (a / 4) (by omega)
    have d2 := b64DecChar_encChar (a % 4 * 16) (by omega)
    simp only [b64Encode]
    rw [b64Decode.eq_def]
    dsimp only
    rw [d1, d2]
    simp only [Option.elim]
    norm_num
    omega
  | [a, b], h => by
    have ha : a < 256 := h a (by simp)
    have hb : b < 256 := h b (by simp)
    have d1 := b64DecChar_encChar (a / 4) (by omega)
    have d2 := b64DecChar_encChar (a % 4 * 16 + b / 16) (by omega)
    have d3 := b64DecChar_encChar (b % 16 * 4) (by omega)
    simp only [b64Encode]
    rw [b64Decode.eq_def]
    dsimp only
    rw [d1, d2, d3]
    simp only [Option.elim]
    rw [if_neg (b64EncChar_ne61 _)]
    norm_num
    constructor
    · omega
    · omega
  | a :: b :: c :: rest, h => by
    have ih := b64Decode_b64Encode rest (fun x hx => h x (by simp [hx]))
    have ha : a < 256 := h a (by simp)
    have hb : b < 256 := h b (by simp)
    have hc : c < 256 := h c (by simp)
    have d1 := b64DecChar_encChar (a / 4) (by omega)
    have d2 := b64DecChar_encChar (a % 4 * 16 + b / 16) (by omega)
    have d3 := b64DecChar_encChar (b % 16 * 4 + c / 64) (by omega)
    have d4 := b64DecChar_encChar (c % 64) (by omega)
    simp only [b64Encode]
    rw [b64Decode.eq_def]
    dsimp only
    rw [d1, d2, d3, d4]
    simp only [Option.elim]
    rw [if_neg (b64EncChar_ne61 _), if_neg (b64EncChar_ne61 _)]
    rw [ih]
    simp only [Except.map]
    have e1 : a / 4 * 4 + (a % 4 * 16 + b / 16) / 16 = a := by omega
    have e2 : (a % 4 * 16 + b / 16) % 16 * 16 + (b % 16 * 4 + c / 64) / 4 = b := by omega
    have e3 : (b % 16 * 4 + c / 64) % 4 * 64 + c % 64 = c := by omega
    rw [e1, e2, e3]

end Utf8B64Lemmas

section ParserScaffolding

theorem exmap_ok {α β : Type} (f : α → β) (a : α) :
    Except.map f (Except.ok a : Except PyErr α) = .ok (f a) := rfl

theorem exmap_error {α β : Type} (f : α → β) (e : PyErr) :
    Except.map f (Except.error e : Except PyErr α) = .error e := rfl

theorem exbind_ok {α β : Type} (a : α) (f : α → Except PyErr β) :
    (Except.ok a : Except PyErr α) >>= f = f a := rfl

theorem exbind_error {α β : Type} (e : PyErr) (f : α → Except PyErr β) :
    (Except.error e : Except PyErr α) >>= f = .error e := rfl

mutual

/-- Fuel needed by `parseVal` on the canonical serialization of a value
(a proof-side bound, not part of the model). -/
def pSize : Json → Nat
  | .null | .bool _ | .num _ | .str _ => 2
  | .arr l => pSizeArr l + 3
  | .obj m => pSizeObj m + 3

def pSizeArr : List Json → Nat
  | [] => 0
  | v :: r => pSize v + pSizeArr r + 2

def pSizeObj : List (Str × Json) → Nat
  | [] => 0
  | (_, v) :: r => pSize v + pSizeObj r + 3

end

theorem pSize_pos (v : Json) : 2 ≤ pSize v := by
  cases v <;> simp [pSize]

/-- Tail of array-item input after one item: either the closing bracket or
a comma and the remaining items. -/
def arrTail (vs : List Json) (rest : Str) : Str :=
  match vs with
  | [] => 93 :: rest
  | _ :: _ => 44 :: canonArr vs ++ 93 :: rest

/-- Tail of object-member input after one member: either the closing brace
or a comma and the remaining members. -/
def memTail (ms : List (Str × Json)) (rest : Str) : Str :=
  match ms with
  | [] => 125 :: rest
  | _ :: _ => 44 :: joinMembers (canonMembers ms) ++ 125 :: rest

theorem canonArr_cons_eq (v : Json) (vs : List Json) (rest : Str) :
    canonArr (v :: vs) ++ 93 :: rest = canonV v ++ arrTail vs rest := by
  cases vs with
  | nil => rfl
  | cons w ws => simp [canonArr, arrTail, List.append_assoc]

theorem joinMembers_cons_eq (k : Str) (v : Json) (ms : List (Str × Json)) (rest : Str) :
    joinMembers (canonMembers ((k, v) :: ms)) ++ 125 :: rest =
      34 :: (escStr k ++ 34 :: 58 :: (canonV v ++ memTail ms rest)) := by
  cases ms with
  | nil => simp [canonMembers, joinMembers, memTail, List.append_assoc]
  | cons m ms' =>
    cases m with
    | mk k2 v2 =>
      simp only [canonMembers, joinMembers, memTail]
      simp [List.append_assoc]

theorem natDigits_head (n : Nat) : ∃ d ds, natDigits n = d :: ds ∧ 48 ≤ d ∧ d ≤ 57 := by
  cases h : natDigits n with
  | nil => exact absurd h (natDigits_ne_nil n)
  | cons d ds =>
    refine ⟨d, ds, rfl, ?_⟩
    exact natDigits_bounds n d (by rw [h]; simp)

theorem canonV_head (v : Json) :
    ∃ c cs, canonV v = c :: cs ∧ isWs c = false ∧ c ≠ 93 ∧ c ≠ 125 := by
  cases v with
  | null => exact ⟨110, _, rfl, by decide, by decide, by decide⟩
  | bool b =>
    cases b with
    | true => exact ⟨116, _, rfl, by decide, by decide, by decide⟩
    | false => exact ⟨102, _, rfl, by decide, by decide, by decide⟩
  | num n =>
    show ∃ c cs, canonNum n = c :: cs ∧ _
    unfold canonNum
    split
    · exact ⟨45, _, rfl, by decide, by decide, by decide⟩
    · obtain ⟨d, ds, hd, h1, h2⟩ := natDigits_head n.toNat
      refine ⟨d, ds, hd, ?_, ?_, ?_⟩
      · simp only [isWs]
        have : d ≠ 32 ∧ d ≠ 9 ∧ d ≠ 10 ∧ d ≠ 13 := by omega
        simp [this.1, this.2.1, this.2.2.1, this.2.2.2]
      · omega
      · omega
  | str s => exact ⟨34, _, rfl, by decide, by decide, by decide⟩
  | arr l => exact ⟨91, _, rfl, by decide, by decide, by decide⟩
  | obj m => exact ⟨123, _, rfl, by decide, by decide, by decide⟩

theorem skipWs_canonV (v : Json) (rest : Str) :
    skipWs (canonV v ++ rest) = canonV v ++ rest := by
  obtain ⟨c, cs, hc, hws, _, _⟩ := canonV_head v
  rw [hc, List.cons_append, skipWs_not_ws c _ hws]

end ParserScaffolding

section SortLemmas

theorem orderedInsert_canonMembers (k : Str) (v : Json) (l : List (Str × Json)) :
    List.orderedInsert pairLe (k, canonV v) (canonMembers l) =
      canonMembers (List.orderedInsert keyLe (k, v) l) := by
  induction l with
  | nil => rfl
  | cons kv l ih =>
    cases kv with
    | mk k2 v2 =>
      simp only [canonMembers, List.orderedInsert]
      by_cases h : strLeB k k2 = true
      · rw [if_pos (show pairLe (k, canonV v) (k2, canonV v2) from h),
          if_pos (show keyLe (k, v) (k2, v2) from h)]
        rfl
      · rw [if_neg (show ¬pairLe (k, canonV v) (k2, canonV v2) from h),
          if_neg (show ¬keyLe (k, v) (k2, v2) from h)]
        simp only [canonMembers, ih]

theorem insertionSort_canonMembers (m : List (Str × Json)) :
    List.insertionSort pairLe (canonMembers m) = canonMembers (List.insertionSort keyLe m) := by
  induction m with
  | nil => rfl
  | cons kv m ih =>
    cases kv with
    | mk k v =>
      simp only [canonMembers, List.insertionSort, ih, orderedInsert_canonMembers]

theorem orderedInsert_sortMembers (k : Str) (v : Json) (l : List (Str × Json)) :
    List.orderedInsert keyLe (k, sortJ v) (sortMembers l) =
      sortMembers (List.orderedInsert keyLe (k, v) l) := by
  induction l with
  | nil => rfl
  | cons kv l ih =>
    cases kv with
    | mk k2 v2 =>
      simp only [sortMembers, List.orderedInsert]
      by_cases h : strLeB k k2 = true
      · rw [if_pos (show keyLe (k, sortJ v) (k2, sortJ v2) from h),
          if_pos (show keyLe (k, v) (k2, v2) from h)]
        rfl
      · rw [if_neg (show ¬keyLe (k, sortJ v) (k2, sortJ v2) from h),
          if_neg (show ¬keyLe (k, v) (k2, v2) from h)]
        simp only [sortMembers, ih]

theorem insertionSort_sortMembers (m : List (Str × Json)) :
    List.insertionSort keyLe (sortMembers m) = sortMembers (List.insertionSort keyLe m) := by
  induction m with
  | nil => rfl
  | cons kv m ih =>
    cases kv with
    | mk k v =>
      simp only [sortMembers, List.insertionSort, ih, orderedInsert_sortMembers]

theorem pSizeObj_orderedInsert (k : Str) (v : Json) (l : List (Str × Json)) :
    pSizeObj (List.orderedInsert keyLe (k, v) l) = pSize v + pSizeObj l + 3 := by
  induction l with
  | nil => rfl
  | cons kv l ih =>
    cases kv with
    | mk k2 v2 =>
      simp only [List.orderedInsert]
      split
      · simp only [pSizeObj]
      · simp only [pSizeObj, ih]
        omega

theorem pSizeObj_insertionSort (m : List (Str × Json)) :
    pSizeObj (List.insertionSort keyLe m) = pSizeObj m := by
  induction m with
  | nil => rfl
  | cons kv m ih =>
    cases kv with
    | mk k v =>
      simp only [List.insertionSort, pSizeObj_orderedInsert, pSizeObj, ih]

theorem jsonRepObj_forall (m : List (Str × Json)) :
    jsonRepObj m = true ↔ ∀ kv ∈ m, validStr kv.1 = true ∧ jsonRep kv.2 = true := by
  induction m with
  | nil => simp [jsonRepObj]
  | cons kv m ih =>
    cases kv with
    | mk k v =>
      simp only [jsonRepObj, Bool.and_eq_true, List.mem_cons, ih]
      constructor
      · rintro ⟨⟨h1, h2⟩, h3⟩ kv2 (rfl | hm)
        · exact ⟨h1, h2⟩
        · exact h3 kv2 hm
      · intro h
        exact ⟨⟨(h (k, v) (Or.inl rfl)).1, (h (k, v) (Or.inl rfl)).2⟩,
          fun kv2 hm => h kv2 (Or.inr hm)⟩

theorem jsonRepObj_insertionSort (m : List (Str × Json)) (h : jsonRepObj m = true) :
    jsonRepObj (List.insertionSort keyLe m) = true := by
  rw [jsonRepObj_forall] at h ⊢
  intro kv hkv
  exact h kv ((List.perm_insertionSort keyLe m).mem_iff.mp hkv)

theorem insertionSort_ne_nil (m : List (Str × Json)) (h : m ≠ []) :
    List.insertionSort keyLe m ≠ [] := by
  intro hc
  have := (List.perm_insertionSort keyLe m).length_eq
  rw [hc] at this
  simp only [List.length_nil] at this
  exact h (List.eq_nil_of_length_eq_zero this.symm)

theorem headDigit_arrTail (vs : List Json) (rest : Str) :
    headDigit (arrTail vs rest) = false := by
  cases vs <;> simp [arrTail, headDigit, isDigit]

theorem headDigit_memTail (ms : List (Str × Json)) (rest : Str) :
    headDigit (memTail ms rest) = false := by
  cases ms <;> simp [memTail, headDigit, isDigit]

theorem skipWs_arrTail (vs : List Json) (rest : Str) :
    skipWs (arrTail vs rest) = arrTail vs rest := by
  cases vs <;> simp [arrTail, skipWs, isWs]

theorem skipWs_memTail (ms : List (Str × Json)) (rest : Str) :
    skipWs (memTail ms rest) = memTail ms rest := by
  cases ms <;> simp [memTail, skipWs, isWs]

end SortLemmas

section ParserUnfold

theorem parseVal_succ (fuel : Nat) (s : Str) :
    parseVal (fuel + 1) s = parseTok fuel (skipWs s) := rfl

theorem parseTok_succ_cons (fuel c : Nat) (r : Str) :
    parseTok (fuel + 1) (c :: r) =
      (if c = 110 then
        match r with
        | 117 :: 108 :: 108 :: r2 => .ok (.null, r2)
        | _ => .error .jsonError
      else if c = 116 then
        match r with
        | 114 :: 117 :: 101 :: r2 => .ok (.bool true, r2)
        | _ => .error .jsonError
      else if c = 102 then
        match r with
        | 97 :: 108 :: 115 :: 101 :: r2 => .ok (.bool false, r2)
        | _ => .error .jsonError
      else if c = 34 then
        Except.map (fun p => (Json.str (combineSurr p.1), p.2)) (parseStrBody r)
      else if c = 91 then parseArrBody fuel (skipWs r)
      else if c = 123 then parseObjBody fuel (skipWs r)
      else if c = 45 ∨ isDigit c then
        Except.map (fun p => (Json.num p.1, p.2)) (parseNum (c :: r))
      else .error .jsonError) := rfl

theorem parseArrBody_succ_cons (fuel c : Nat) (r : Str) :
    parseArrBody (fuel + 1) (c :: r) =
      (if c = 93 then .ok (.arr [], r)
      else Except.map (fun p => (Json.arr p.1, p.2)) (parseItems fuel (c :: r))) := rfl

theorem parseItems_succ (fuel : Nat) (s : Str) :
    parseItems (fuel + 1) s =
      parseVal fuel s >>= fun p => parseItemsSep fuel p.1 (skipWs p.2) := rfl

theorem parseItemsSep_succ_cons (fuel : Nat) (v : Json) (c : Nat) (r : Str) :
    parseItemsSep (fuel + 1) v (c :: r) =
      (if c = 44 then Except.map (fun q => (v :: q.1, q.2)) (parseItems fuel r)
      else if c = 93 then .ok ([v], r)
      else .error .jsonError) := rfl

theorem parseObjBody_succ_cons (fuel c : Nat) (r : Str) :
    parseObjBody (fuel + 1) (c :: r) =
      (if c = 125 then .ok (.obj [], r)
      else Except.map (fun p => (Json.obj p.1, p.2)) (parseMembers fuel (c :: r))) := rfl

theorem parseMembers_succ_cons (fuel c : Nat) (r : Str) :
    parseMembers (fuel + 1) (c :: r) =
      (if c = 34 then
        parseStrBody r >>= fun kp => parseMemberColon fuel (combineSurr kp.1) (skipWs kp.2)
      else .error .jsonError) := rfl

theorem parseMemberColon_succ_cons (fuel : Nat) (k : Str) (c : Nat) (r : Str) :
    parseMemberColon (fuel + 1) k (c :: r) =
      (if c = 58 then
        parseVal fuel r >>= fun vp => parseMembersSep fuel k vp.1 (skipWs vp.2)
      else .error .jsonError) := rfl

theorem parseMembersSep_succ_cons (fuel : Nat) (k : Str) (v : Json) (c : Nat) (r : Str) :
    parseMembersSep (fuel + 1) k v (c :: r) =
      (if c = 44 then Except.map (fun q => ((k, v) :: q.1, q.2)) (parseMembers fuel (skipWs r))
      else if c = 125 then .ok ([(k, v)], r)
      else .error .jsonError) := rfl

end ParserUnfold

section ParseTokLeaf

theorem skipWs_canonArr93 (l : List Json) (rest : Str) :
    skipWs (canonArr l ++ 93 :: rest) = canonArr l ++ 93 :: rest := by
  cases l with
  | nil => rfl
  | cons v vs =>
    rw [canonArr_cons_eq]
    exact skipWs_canonV v (arrTail vs rest)

theorem skipWs_joinMembers125 (ms : List (Str × Json)) (rest : Str) :
    skipWs (joinMembers (canonMembers ms) ++ 125 :: rest) =
      joinMembers (canonMembers ms) ++ 125 :: rest := by
  cases ms with
  | nil => rfl
  | cons kv ms' =>
    cases kv with
    | mk k v =>
      rw [joinMembers_cons_eq]
      rfl

theorem parseTok_null (fuel : Nat) (rest : Str) :
    parseTok (fuel + 1) (canonV .null ++ rest) = .ok (.null, rest) := rfl

theorem parseTok_bool (fuel : Nat) (b : Bool) (rest : Str) :
    parseTok (fuel + 1) (canonV (.bool b) ++ rest) = .ok (.bool b, rest) := by
  cases b <;> rfl

theorem parseTok_num (fuel : Nat) (n : Int) (rest : Str) (hr : headDigit rest = false) :
    parseTok (fuel + 1) (canonNum n ++ rest) = .ok (.num n, rest) := by
  have hpn := parseNum_canonNum n rest hr
  unfold canonNum at hpn ⊢
  split at hpn
  · rename_i hn
    rw [if_pos hn, List.cons_append, parseTok_succ_cons]
    norm_num
    rw [← List.cons_append, hpn, exmap_ok]
  · rename_i hn
    rw [if_neg hn]
    obtain ⟨d, ds, hd, h1, h2⟩ := natDigits_head n.toNat
    rw [hd] at hpn ⊢
    rw [List.cons_append, parseTok_succ_cons]
    rw [if_neg (by omega), if_neg (by omega), if_neg (by omega), if_neg (by omega),
      if_neg (by omega), if_neg (by omega)]
    rw [if_pos (Or.inr (by simp only [isDigit, Bool.and_eq_true, decide_eq_true_eq]; omega))]
    rw [← List.cons_append, hpn, exmap_ok]

theorem parseTok_str (fuel : Nat) (s : Str) (rest : Str) (hv : validStr s = true) :
    parseTok (fuel + 1) (canonV (.str s) ++ rest) = .ok (.str s, rest) := by
  show parseTok (fuel + 1) ((34 :: (escStr s ++ [34])) ++ rest) = _
  rw [List.cons_append, List.append_assoc, List.singleton_append, parseTok_succ_cons]
  norm_num
  rw [parseStrBody_escape, exmap_ok, combineSurr_id s (validStr_no_high s hv)]

end ParseTokLeaf

/-- Round trip of the canonical serializer through the parser family, by
induction on the fuel: each component handles one parser of the mutual
family. -/
theorem parse_canon (fuel : Nat) :
    (∀ v rest, jsonRep v = true → pSize v ≤ fuel → headDigit rest = false →
      parseVal fuel (canonV v ++ rest) = .ok (sortJ v, rest)) ∧
    (∀ v rest, jsonRep v = true → pSize v ≤ fuel + 1 → headDigit rest = false →
      parseTok fuel (canonV v ++ rest) = .ok (sortJ v, rest)) ∧
    (∀ l rest, jsonRepArr l = true → pSizeArr l + 1 ≤ fuel →
      parseArrBody fuel (canonArr l ++ 93 :: rest) = .ok (.arr (sortArr l), rest)) ∧
    (∀ v vs rest, jsonRep v = true → jsonRepArr vs = true → pSize v + pSizeArr vs + 2 ≤ fuel →
      parseItems fuel (canonV v ++ arrTail vs rest) = .ok (sortJ v :: sortArr vs, rest)) ∧
    (∀ w vs rest, jsonRepArr vs = true → pSizeArr vs + 1 ≤ fuel →
      parseItemsSep fuel w (arrTail vs rest) = .ok (w :: sortArr vs, rest)) ∧
    (∀ m rest, jsonRepObj m = true → pSizeObj m + 1 ≤ fuel →
      parseObjBody fuel (joinMembers (canonMembers m) ++ 125 :: rest) =
        .ok (.obj (sortMembers m), rest)) ∧
    (∀ k v ms rest, validStr k = true → jsonRep v = true → jsonRepObj ms = true →
      pSize v + pSizeObj ms + 3 ≤ fuel →
      parseMembers fuel (34 :: (escStr k ++ 34 :: 58 :: (canonV v ++ memTail ms rest))) =
        .ok ((k, sortJ v) :: sortMembers ms, rest)) ∧
    (∀ k v ms rest, jsonRep v = true → jsonRepObj ms = true →
      pSize v + pSizeObj ms + 2 ≤ fuel →
      parseMemberColon fuel k (58 :: (canonV v ++ memTail ms rest)) =
        .ok ((k, sortJ v) :: sortMembers ms, rest)) ∧
    (∀ k w ms rest, jsonRepObj ms = true → pSizeObj ms + 1 ≤ fuel →
      parseMembersSep fuel k w (memTail ms rest) = .ok ((k, w) :: sortMembers ms, rest)) := by
  induction fuel with
  | zero =>
    refine ⟨?_, ?_, ?_, ?_, ?_, ?_, ?_, ?_, ?_⟩
    · intro v rest _ hsz _
      exact absurd hsz (by have := pSize_pos v; omega)
    · intro v rest _ hsz _
      exact absurd hsz (by have := pSize_pos v; omega)
    · intro l rest _ hsz
      omega
    · intro v vs rest _ _ hsz
      omega
    · intro w vs rest _ hsz
      omega
    · intro m rest _ hsz
      omega
    · intro k v ms rest _ _ _ hsz
      omega
    · intro k v ms rest _ _ hsz
      omega
    · intro k w ms rest _ hsz
      omega
  | succ fuel ih =>
    obtain ⟨V, T, A, I, S, O, M, MC, MS⟩ := ih
    have Tnew : ∀ v rest, jsonRep v = true → pSize v ≤ fuel + 2 → headDigit rest = false →
        parseTok (fuel + 1) (canonV v ++ rest) = .ok (sortJ v, rest) := by
      intro v rest hrep hsz hhd
      cases v with
      | null => exact parseTok_null fuel rest
      | bool b => exact parseTok_bool fuel b rest
      | num n => exact parseTok_num fuel n rest hhd
      | str s =>
        have hv : validStr s = true := by simpa [jsonRep] using hrep
        exact parseTok_str fuel s rest hv
      | arr l =>
        have hrl : jsonRepArr l = true := by simpa [jsonRep] using hrep
        show parseTok (fuel + 1) ((91 :: (canonArr l ++ [93])) ++ rest) = _
        rw [List.cons_append, List.append_assoc, List.singleton_append, parseTok_succ_cons]
        norm_num
        rw [skipWs_canonArr93]
        rw [A l rest hrl (by simp only [pSize] at hsz; omega)]
        simp [sortJ]
      | obj m =>
        have hro : jsonRepObj m = true := by
          simp only [jsonRep, Bool.and_eq_true] at hrep
          exact hrep.2
        show parseTok (fuel + 1)
            ((123 :: (joinMembers (List.insertionSort pairLe (canonMembers m)) ++ [125])) ++ rest) = _
        rw [List.cons_append, List.append_assoc, List.singleton_append, parseTok_succ_cons]
        norm_num
        rw [insertionSort_canonMembers, skipWs_joinMembers125]
        rw [O (List.insertionSort keyLe m) rest (jsonRepObj_insertionSort m hro)
          (by rw [pSizeObj_insertionSort]; simp only [pSize] at hsz; omega)]
        rw [← insertionSort_sortMembers]
        simp [sortJ]
    refine ⟨?_, Tnew, ?_, ?_, ?_, ?_, ?_, ?_, ?_⟩
    · intro v rest hrep hsz hhd
      rw [parseVal_succ, skipWs_canonV]
      exact T v rest hrep hsz hhd
    · intro l rest hrl hsz
      cases l with
      | nil =>
        show parseArrBody (fuel + 1) (93 :: rest) = _
        rw [parseArrBody_succ_cons]
        norm_num
        rfl
      | cons v vs =>
        rw [canonArr_cons_eq]
        obtain ⟨c, cs, hc, hws, h93, _⟩ := canonV_head v
        simp only [jsonRepArr, Bool.and_eq_true] at hrl
        rw [hc, List.cons_append, parseArrBody_succ_cons, if_neg h93, ← List.cons_append, ← hc]
        rw [I v vs rest hrl.1 hrl.2 (by simp only [pSizeArr] at hsz; omega)]
        rfl
    · intro v vs rest hrv hrvs hsz
      rw [parseItems_succ]
      rw [V v (arrTail vs rest) hrv (by omega) (headDigit_arrTail vs rest)]
      rw [exbind_ok]
      dsimp only
      rw [skipWs_arrTail]
      exact S (sortJ v) vs rest hrvs (by omega)
    · intro w vs rest hrvs hsz
      cases vs with
      | nil =>
        show parseItemsSep (fuel + 1) w (93 :: rest) = _
        rw [parseItemsSep_succ_cons]
        norm_num
        rfl
      | cons v2 vs2 =>
        show parseItemsSep (fuel + 1) w (44 :: canonArr (v2 :: vs2) ++ 93 :: rest) = _
        rw [List.cons_append, parseItemsSep_succ_cons]
        norm_num
        rw [canonArr_cons_eq]
        simp only [jsonRepArr, Bool.and_eq_true] at hrvs
        rw [I v2 vs2 rest hrvs.1 hrvs.2 (by simp only [pSizeArr] at hsz; omega)]
        rfl
    · intro m rest hro hsz
      cases m with
      | nil =>
        show parseObjBody (fuel + 1) (125 :: rest) = _
        rw [parseObjBody_succ_cons]
        norm_num
        rfl
      | cons kv ms =>
        cases kv with
        | mk k v =>
          rw [joinMembers_cons_eq, parseObjBody_succ_cons]
          norm_num
          simp only [jsonRepObj, Bool.and_eq_true] at hro
          rw [M k v ms rest hro.1.1 hro.1.2 hro.2 (by simp only [pSizeObj] at hsz; omega)]
          rfl
    · intro k v ms rest hk hrv hro hsz
      rw [parseMembers_succ_cons]
      norm_num
      rw [parseStrBody_escape, exbind_ok]
      dsimp only
      rw [combineSurr_id k (validStr_no_high k hk)]
      rw [skipWs_not_ws 58 _ (by decide)]
      exact MC k v ms rest hrv hro (by omega)
    · intro k v ms rest hrv hro hsz
      rw [parseMemberColon_succ_cons]
      norm_num
      rw [V v (memTail ms rest) hrv (by omega) (headDigit_memTail ms rest)]
      rw [exbind_ok]
      dsimp only
      rw [skipWs_memTail]
      exact MS k (sortJ v) ms rest hro (by omega)
    · intro k w ms rest hro hsz
      cases ms with
      | nil =>
        show parseMembersSep (fuel + 1) k w (125 :: rest) = _
        rw [parseMembersSep_succ_cons]
        norm_num
        rfl
      | cons kv2 ms2 =>
        cases kv2 with
        | mk k2 v2 =>
          show parseMembersSep (fuel + 1) k w
              (44 :: joinMembers (canonMembers ((k2, v2) :: ms2)) ++ 125 :: rest) = _
          rw [List.cons_append, parseMembersSep_succ_cons]
          norm_num
          rw [skipWs_joinMembers125, joinMembers_cons_eq]
          simp only [jsonRepObj, Bool.and_eq_true] at hro
          rw [M k2 v2 ms2 rest hro.1.1 hro.1.2 hro.2 (by simp only [pSizeObj] at hsz; omega)]
          rfl

section FuelBound

theorem arrBound (l : List Json) (h : ∀ v ∈ l, pSize v ≤ 4 * (canonV v).length) :
    pSizeArr l ≤ 4 * (canonArr l).length + 2 := by
  induction l with
  | nil => simp [pSizeArr]
  | cons v vs ih =>
    have hv := h v (by simp)
    cases vs with
    | nil =>
      simp only [pSizeArr, pSizeArr.eq_1, canonArr]
      omega
    | cons w ws =>
      have ihs := ih (fun x hx => h x (by simp [hx]))
      show pSize v + pSizeArr (w :: ws) + 2 ≤ 4 * (canonV v ++ 44 :: canonArr (w :: ws)).length + 2
      simp only [List.length_append, List.length_cons] at *
      omega

theorem objBound (ms : List (Str × Json)) (h : ∀ kv ∈ ms, pSize kv.2 ≤ 4 * (canonV kv.2).length) :
    pSizeObj ms ≤ 4 * (joinMembers (canonMembers ms)).length + 2 := by
  induction ms with
  | nil => simp [pSizeObj]
  | cons kv ms' ih =>
    cases kv with
    | mk k v =>
      have hv := h (k, v) (by simp)
      cases ms' with
      | nil =>
        show pSize v + 0 + 3 ≤ 4 * (34 :: escStr k ++ [34, 58] ++ canonV v).length + 2
        simp only [List.length_cons, List.length_append] at *
        omega
      | cons kv2 ms2 =>
        have ihs := ih (fun x hx => h x (by simp [hx]))
        show pSize v + pSizeObj (kv2 :: ms2) + 3 ≤
          4 * (34 :: escStr k ++ [34, 58] ++ canonV v ++
            44 :: joinMembers (canonMembers (kv2 :: ms2))).length + 2
        simp only [canonMembers, List.length_cons, List.length_append] at *
        omega

theorem jSize_mem_arr (l : List Json) (x : Json) (hx : x ∈ l) : jSize x < jSize (.arr l) := by
  simp only [jSize]
  induction l with
  | nil => cases hx
  | cons y ys ih =>
    rcases List.mem_cons.mp hx with rfl | hm
    · simp only [jSizeArr]
      omega
    · have := ih hm
      simp only [jSizeArr]
      omega

theorem jSize_mem_obj (m : List (Str × Json)) (kv : Str × Json) (hkv : kv ∈ m) :
    jSize kv.2 < jSize (.obj m) := by
  simp only [jSize]
  induction m with
  | nil => cases hkv
  | cons y ys ih =>
    rcases List.mem_cons.mp hkv with rfl | hm
    · cases kv with
      | mk k v => simp only [jSizeObj]; omega
    · have := ih hm
      cases y with
      | mk k2 v2 => simp only [jSizeObj]; omega

theorem pSize_le_4len (v : Json) : pSize v ≤ 4 * (canonV v).length := by
  suffices h : ∀ n, ∀ v : Json, jSize v ≤ n → pSize v ≤ 4 * (canonV v).length from
    h (jSize v) v le_rfl
  intro n
  induction n using Nat.strong_induction_on with
  | _ n ih =>
    intro v hn
    cases v with
    | null => simp [pSize, canonV]
    | bool b => cases b <;> simp [pSize, canonV]
    | num m =>
      obtain ⟨c, cs, hc, _, _, _⟩ := canonV_head (.num m)
      simp only [pSize, hc, List.length_cons]
      omega
    | str s =>
      simp only [pSize, canonV, List.length_cons, List.length_append]
      omega
    | arr l =>
      have hb := arrBound l (fun x hx =>
        ih (jSize x) (by have := jSize_mem_arr l x hx; omega) x le_rfl)
      simp only [pSize, canonV, List.length_cons, List.length_append, List.length_nil] at *
      omega
    | obj m =>
      have hmem : ∀ kv ∈ List.insertionSort keyLe m, pSize kv.2 ≤ 4 * (canonV kv.2).length :=
        fun kv hkv =>
          ih (jSize kv.2)
            (by
              have := jSize_mem_obj m kv ((List.perm_insertionSort keyLe m).mem_iff.mp hkv)
              omega)
            kv.2 le_rfl
      have hb := objBound (List.insertionSort keyLe m) hmem
      rw [pSizeObj_insertionSort] at hb
      simp only [pSize, canonV, insertionSort_canonMembers, List.length_cons,
        List.length_append, List.length_nil] at *
      omega

theorem jsonLoads_canonV (v : Json) (h : jsonRep v = true) :
    jsonLoads (canonV v) = .ok (sortJ v) := by
  unfold jsonLoads
  have hV := (parse_canon (4 * (canonV v).length + 4)).1
  have hrun := hV v [] h (by have := pSize_le_4len v; omega) rfl
  rw [List.append_nil] at hrun
  rw [hrun, exbind_ok]
  rfl

end FuelBound

section ValidCanon

theorem validScalar_of_lt (c : Nat) (h : c < 55296) : validScalar c = true := by
  simp only [validScalar, decide_eq_true_eq]
  omega

theorem validStr_forall (s : Str) :
    validStr s = true ↔ ∀ c ∈ s, validScalar c = true := by
  simp [validStr, List.all_eq_true]

theorem hexDigit_lt (n : Nat) (h : n < 16) : hexDigit n < 128 := by
  unfold hexDigit
  split <;> omega

theorem validStr_escChar (c : Nat) (h : validScalar c = true) : validStr (escChar c) = true := by
  rw [validStr_forall]
  intro x hx
  unfold escChar at hx
  split at hx
  · simp only [List.mem_cons, List.not_mem_nil, or_false] at hx
    rcases hx with rfl | rfl
    · decide
    · decide
  · split at hx
    · simp only [List.mem_cons, List.not_mem_nil, or_false] at hx
      rcases hx with rfl | rfl
      · decide
      · decide
    · split at hx
      · simp only [List.mem_cons, List.not_mem_nil, or_false] at hx
        rcases hx with rfl | rfl | rfl | rfl | rfl | rfl
        · decide
        · decide
        · decide
        · decide
        · exact validScalar_of_lt _ (by have := hexDigit_lt (c / 16) (by omega); omega)
        · exact validScalar_of_lt _ (by have := hexDigit_lt (c % 16) (by omega); omega)
      · simp only [List.mem_singleton] at hx
        subst hx
        exact h

theorem validStr_escStr (s : Str) (h : validStr s = true) : validStr (escStr s) = true := by
  induction s with
  | nil => rfl
  | cons c r ih =>
    rw [validStr_forall] at h ⊢
    intro x hx
    simp only [escStr, List.mem_append] at hx
    rcases hx with hx | hx
    · exact (validStr_forall _).mp
        (validStr_escChar c (h c (List.mem_cons_self c r))) x hx
    · exact (validStr_forall _).mp
        (ih ((validStr_forall r).mpr fun y hy => h y (List.mem_cons_of_mem c hy))) x hx

theorem validStr_natDigits (n : Nat) : validStr (natDigits n) = true := by
  rw [validStr_forall]
  intro c hc
  have := natDigits_bounds n c hc
  exact validScalar_of_lt c (by omega)

theorem validStr_canonNum (n : Int) : validStr (canonNum n) = true := by
  rw [validStr_forall]
  intro c hc
  unfold canonNum at hc
  split at hc
  · simp only [List.mem_cons] at hc
    rcases hc with rfl | hc
    · decide
    · have := natDigits_bounds _ c hc
      exact validScalar_of_lt c (by omega)
  · have := natDigits_bounds _ c hc
    exact validScalar_of_lt c (by omega)

theorem validStr_joinMembers : ∀ ms : List (Str × Str),
    (∀ kv ∈ ms, validStr kv.1 = true ∧ validStr kv.2 = true) →
    validStr (joinMembers ms) = true
  | [], _ => rfl
  | [(k, cv)], h => by
    have hk := h (k, cv) (by simp)
    rw [validStr_forall]
    intro c hc
    simp only [joinMembers, List.mem_cons, List.mem_append, List.not_mem_nil, or_false] at hc
    rcases hc with ((rfl | hc) | rfl | rfl) | hc
    · decide
    · exact (validStr_forall _).mp (validStr_escStr k hk.1) c hc
    · decide
    · decide
    · exact (validStr_forall _).mp hk.2 c hc
  | (k, cv) :: kv2 :: r, h => by
    have hk := h (k, cv) (by simp)
    have ih := validStr_joinMembers (kv2 :: r) (fun kv hkv => h kv (List.mem_cons_of_mem _ hkv))
    rw [validStr_forall]
    intro c hc
    simp only [joinMembers, List.mem_cons, List.mem_append, List.not_mem_nil, or_false] at hc
    rcases hc with ((((rfl | hc) | rfl | rfl) | hc) | rfl | hc)
    · decide
    · exact (validStr_forall _).mp (validStr_escStr k hk.1) c hc
    · decide
    · decide
    · exact (validStr_forall _).mp hk.2 c hc
    · decide
    · exact (validStr_forall _).mp ih c hc

theorem validStr_canonArr : ∀ l : List Json, (∀ x ∈ l, validStr (canonV x) = true) →
    validStr (canonArr l) = true
  | [], _ => rfl
  | [v], h => h v (by simp)
  | v :: v2 :: r, h => by
    have ih := validStr_canonArr (v2 :: r) (fun x hx => h x (List.mem_cons_of_mem _ hx))
    rw [validStr_forall]
    intro c hc
    simp only [canonArr, List.mem_cons, List.mem_append] at hc
    rcases hc with hc | (rfl | hc)
    · exact (validStr_forall _).mp (h v (by simp)) c hc
    · decide
    · exact (validStr_forall _).mp ih c hc

theorem jsonRepArr_forall (l : List Json) :
    jsonRepArr l = true ↔ ∀ x ∈ l, jsonRep x = true := by
  induction l with
  | nil => simp [jsonRepArr]
  | cons v r ih =>
    simp only [jsonRepArr, Bool.and_eq_true, List.mem_cons, ih]
    constructor
    · rintro ⟨h1, h2⟩ x (rfl | hx)
      · exact h1
      · exact h2 x hx
    · intro h
      exact ⟨h v (Or.inl rfl), fun x hx => h x (Or.inr hx)⟩

theorem mem_canonMembers (l : List (Str × Json)) (kv : Str × Str) (h : kv ∈ canonMembers l) :
    ∃ p ∈ l, kv = (p.1, canonV p.2) := by
  induction l with
  | nil => simp [canonMembers] at h
  | cons p r ih =>
    cases p with
    | mk k v =>
      simp only [canonMembers, List.mem_cons] at h
      rcases h with rfl | h
      · exact ⟨(k, v), by simp⟩
      · obtain ⟨p, hp, he⟩ := ih h
        exact ⟨p, List.mem_cons_of_mem _ hp, he⟩

theorem validStr_canonV (v : Json) (h : jsonRep v = true) : validStr (canonV v) = true := by
  suffices hs : ∀ n, ∀ v : Json, jSize v ≤ n → jsonRep v = true → validStr (canonV v) = true from
    hs (jSize v) v le_rfl h
  intro n
  induction n using Nat.strong_induction_on with
  | _ n ih =>
    intro v hn hrep
    cases v with
    | null => decide
    | bool b => cases b <;> decide
    | num m => exact validStr_canonNum m
    | str s =>
      simp only [jsonRep] at hrep
      rw [validStr_forall]
      intro c hc
      simp only [canonV, List.mem_cons, List.mem_append, List.not_mem_nil, or_false] at hc
      rcases hc with (rfl | hc) | rfl
      · decide
      · exact (validStr_forall _).mp (validStr_escStr s hrep) c hc
      · decide
    | arr l =>
      simp only [jsonRep] at hrep
      rw [jsonRepArr_forall] at hrep
      have hall : ∀ x ∈ l, validStr (canonV x) = true := fun x hx =>
        ih (jSize x) (by have := jSize_mem_arr l x hx; omega) x le_rfl (hrep x hx)
      rw [validStr_forall]
      intro c hc
      simp only [canonV, List.mem_cons, List.mem_append, List.not_mem_nil, or_false] at hc
      rcases hc with (rfl | hc) | rfl
      · decide
      · exact (validStr_forall _).mp (validStr_canonArr l hall) c hc
      · decide
    | obj m =>
      simp only [jsonRep, Bool.and_eq_true] at hrep
      rw [jsonRepObj_forall] at hrep
      have hmem : ∀ kv ∈ canonMembers (List.insertionSort keyLe m),
          validStr kv.1 = true ∧ validStr kv.2 = true := by
        intro kv hkv
        obtain ⟨p, hp, rfl⟩ := mem_canonMembers _ kv hkv
        have hpm : p ∈ m := (List.perm_insertionSort keyLe m).mem_iff.mp hp
        have hrep2 := hrep.2 p hpm
        exact ⟨hrep2.1,
          ih (jSize p.2) (by have := jSize_mem_obj m p hpm; omega) p.2 le_rfl hrep2.2⟩
      rw [validStr_forall]
      intro c hc
      simp only [canonV, insertionSort_canonMembers, List.mem_cons, List.mem_append,
        List.not_mem_nil, or_false] at hc
      rcases hc with (rfl | hc) | rfl
      · decide
      · exact (validStr_forall _).mp (validStr_joinMembers _ hmem) c hc
      · decide

theorem canonicalize_bytes (v : Json) (h : jsonRep v = true) :
    ∀ b ∈ canonicalize v, b < 256 :=
  utf8Encode_lt256 (canonV v) (validStr_canonV v h)

theorem utf8Decode_canonicalize (v : Json) (h : jsonRep v = true) :
    utf8Decode (canonicalize v) = .ok (canonV v) :=
  utf8_roundtrip (canonV v) (validStr_canonV v h)

theorem transport_roundtrip (bs : List Nat) (hb : ∀ x ∈ bs, x < 256) :
    b64Decode (pad_base64 (stripEq (b64Encode bs))) = .ok bs := by
  rw [stripEq_b64Encode]
  exact b64Decode_b64Encode bs hb

theorem mem_b64Encode_ne46 : ∀ bs : List Nat, ∀ c ∈ b64Encode bs, c ≠ 46
  | [], c, hc => by simp [b64Encode] at hc
  | [a], c, hc => by
    simp only [b64Encode, List.mem_cons, List.not_mem_nil, or_false] at hc
    rcases hc with rfl | rfl | rfl | rfl
    · exact b64EncChar_ne46 _
    · exact b64EncChar_ne46 _
    · decide
    · decide
  | [a, b], c, hc => by
    simp only [b64Encode, List.mem_cons, List.not_mem_nil, or_false] at hc
    rcases hc with rfl | rfl | rfl | rfl
    · exact b64EncChar_ne46 _
    · exact b64EncChar_ne46 _
    · exact b64EncChar_ne46 _
    · decide
  | a :: b :: c2 :: rest, c, hc => by
    simp only [b64Encode, List.mem_cons] at hc
    rcases hc with rfl | rfl | rfl | rfl | hc
    · exact b64EncChar_ne46 _
    · exact b64EncChar_ne46 _
    · exact b64EncChar_ne46 _
    · exact b64EncChar_ne46 _
    · exact mem_b64Encode_ne46 rest c hc

theorem no46_stripEq_b64Encode (bs : List Nat) : 46 ∉ stripEq (b64Encode bs) := by
  intro h
  simp only [stripEq] at h
  exact mem_b64Encode_ne46 bs 46 (List.mem_of_mem_filter h) rfl

theorem no46_stripEq (s : Str) (h : 46 ∉ s) : 46 ∉ stripEq s := by
  intro hm
  simp only [stripEq] at hm
  exact h (List.mem_of_mem_filter hm)

end ValidCanon

section DictLemmas

theorem hasKey_append (a b : List (Str × Json)) (k : Str) :
    hasKey (a ++ b) k = (hasKey a k || hasKey b k) := by
  simp [hasKey, List.any_append]

theorem dictSet_missing (d : List (Str × Json)) (k : Str) (v : Json)
    (h : hasKey d k = false) : dictSet d k v = d ++ [(k, v)] := by
  simp [dictSet, h]

theorem nodupKeys_key_notin (k : Str) (v : Json) (r : List (Str × Json))
    (h : nodupKeys ((k, v) :: r) = true) :
    ∀ kv ∈ r, kv.1 ≠ k := by
  simp only [nodupKeys, Bool.and_eq_true, Bool.not_eq_true', List.any_eq_false,
    beq_iff_eq, ne_eq] at h
  exact fun kv hkv => h.1 kv hkv

theorem nodupKeys_tail (k : Str) (v : Json) (r : List (Str × Json))
    (h : nodupKeys ((k, v) :: r) = true) : nodupKeys r = true := by
  simp only [nodupKeys, Bool.and_eq_true] at h
  exact h.2

theorem dictUpdate_disjoint : ∀ b a : List (Str × Json),
    (∀ kv ∈ b, hasKey a kv.1 = false) → nodupKeys b = true →
    dictUpdate a b = a ++ b
  | [], a, _, _ => (List.append_nil a).symm
  | kv :: b, a, hd, hn => by
    cases kv with
    | mk k v =>
      show dictUpdate (dictSet a k v) b = _
      rw [dictSet_missing a k v (hd (k, v) (List.mem_cons_self _ _))]
      rw [dictUpdate_disjoint b (a ++ [(k, v)]) ?_ (nodupKeys_tail k v b hn)]
      · simp
      · intro kv2 hkv2
        rw [hasKey_append, hd kv2 (List.mem_cons_of_mem _ hkv2), Bool.false_or]
        simp only [hasKey, List.any_cons, List.any_nil, Bool.or_false]
        exact beq_eq_false_iff_ne.mpr (Ne.symm (nodupKeys_key_notin k v b hn kv2 hkv2))

theorem nodupKeys_append (a b : List (Str × Json)) (ha : nodupKeys a = true)
    (hb : nodupKeys b = true) (hd : ∀ kv ∈ a, hasKey b kv.1 = false) :
    nodupKeys (a ++ b) = true := by
  induction a with
  | nil => simpa
  | cons kv t ih =>
    cases kv with
    | mk k v =>
      simp only [nodupKeys, Bool.and_eq_true, Bool.not_eq_true', List.any_eq_false,
        beq_iff_eq] at ha
      simp only [List.cons_append, nodupKeys, Bool.and_eq_true, Bool.not_eq_true',
        List.any_eq_false, List.append_eq, beq_iff_eq]
      constructor
      · intro kv2 hkv2
        rw [List.mem_append] at hkv2
        rcases hkv2 with hkv2 | hkv2
        · exact ha.1 kv2 hkv2
        · have := hd (k, v) (List.mem_cons_self _ _)
          simp only [hasKey, List.any_eq_false, beq_iff_eq] at this
          exact this kv2 hkv2
      · exact ih ha.2 (fun kv2 hkv2 => hd kv2 (List.mem_cons_of_mem _ hkv2))

theorem sortMembers_append : ∀ a b : List (Str × Json),
    sortMembers (a ++ b) = sortMembers a ++ sortMembers b
  | [], _ => rfl
  | (k, v) :: t, b => by
    simp only [List.cons_append, sortMembers, List.append_eq, sortMembers_append t b]

end DictLemmas

section OrderLemmas

theorem strLeB_total : ∀ a b : Str, strLeB a b = true ∨ strLeB b a = true
  | [], _ => Or.inl rfl
  | _ :: _, [] => Or.inr rfl
  | a :: as, b :: bs => by
    rcases Nat.lt_trichotomy a b with h | h | h
    · left
      simp [strLeB, h]
    · subst h
      simp only [strLeB]
      rw [if_neg (lt_irrefl a), if_neg (lt_irrefl a), if_neg (lt_irrefl a),
        if_neg (lt_irrefl a)]
      exact strLeB_total as bs
    · right
      simp [strLeB, h]

theorem strLeB_trans : ∀ a b c : Str, strLeB a b = true → strLeB b c = true →
    strLeB a c = true
  | [], _, _, _, _ => rfl
  | a :: as, [], c, h1, _ => by simp [strLeB] at h1
  | a :: as, b :: bs, [], _, h2 => by simp [strLeB] at h2
  | a :: as, b :: bs, c :: cs, h1, h2 => by
    simp only [strLeB] at h1 h2 ⊢
    by_cases hab : a < b
    · by_cases hbc : b < c
      · rw [if_pos (by omega : a < c)]
      · rw [if_neg hbc] at h2
        by_cases hcb : c < b
        · rw [if_pos hcb] at h2
          exact absurd h2 (by simp)
        · rw [if_pos (by omega : a < c)]
    · rw [if_neg hab] at h1
      by_cases hba : b < a
      · rw [if_pos hba] at h1
        exact absurd h1 (by simp)
      · rw [if_neg hba] at h1
        have heq : a = b := by omega
        subst heq
        by_cases hac : a < c
        · rw [if_pos hac]
        · rw [if_neg hac] at h2 ⊢
          by_cases hca : c < a
          · rw [if_pos hca] at h2
            exact absurd h2 (by simp)
          · rw [if_neg hca] at h2 ⊢
            exact strLeB_trans as bs cs h1 h2

instance : IsTotal (Str × Json) keyLe := ⟨fun a b => strLeB_total a.1 b.1⟩

instance : IsTrans (Str × Json) keyLe :=
  ⟨fun a b c h1 h2 => strLeB_trans a.1 b.1 c.1 h1 h2⟩

theorem orderedInsert_of_forall_le (x : Str × Json) (l : List (Str × Json))
    (h : ∀ y ∈ l, keyLe x y) : List.orderedInsert keyLe x l = x :: l := by
  cases l with
  | nil => rfl
  | cons b t =>
    rw [List.orderedInsert, if_pos (h b (List.mem_cons_self _ _))]

theorem filter_orderedInsert (q : Str × Json → Bool) (x : Str × Json) :
    ∀ l : List (Str × Json), List.Sorted keyLe l →
    (List.orderedInsert keyLe x l).filter q =
      if q x then List.orderedInsert keyLe x (l.filter q) else l.filter q
  | [], _ => by
    by_cases hqx : q x
    · rw [if_pos hqx]
      simp [List.orderedInsert, List.filter, hqx]
    · rw [if_neg hqx]
      simp [List.orderedInsert, List.filter, hqx]
  | b :: t, hs => by
    rw [List.sorted_cons] at hs
    obtain ⟨hb, ht⟩ := hs
    by_cases hxb : keyLe x b
    · rw [List.orderedInsert, if_pos hxb]
      by_cases hqx : q x
      · rw [if_pos hqx, List.filter_cons_of_pos hqx]
        by_cases hqb : q b
        · rw [List.filter_cons_of_pos hqb, List.orderedInsert, if_pos hxb]
        · rw [List.filter_cons_of_neg hqb,
            orderedInsert_of_forall_le x _ (fun y hy =>
              strLeB_trans _ _ _ hxb (hb y (List.mem_of_mem_filter hy)))]
      · rw [if_neg hqx, List.filter_cons_of_neg hqx]
    · rw [List.orderedInsert, if_neg hxb]
      by_cases hqb : q b
      · rw [List.filter_cons_of_pos hqb, List.filter_cons_of_pos hqb,
          filter_orderedInsert q x t ht]
        by_cases hqx : q x
        · rw [if_pos hqx, if_pos hqx, List.orderedInsert, if_neg hxb]
        · rw [if_neg hqx, if_neg hqx]
      · rw [List.filter_cons_of_neg hqb, List.filter_cons_of_neg hqb,
          filter_orderedInsert q x t ht]

theorem filter_insertionSort (q : Str × Json → Bool) :
    ∀ l : List (Str × Json),
    (List.insertionSort keyLe l).filter q = List.insertionSort keyLe (l.filter q)
  | [] => rfl
  | x :: t => by
    rw [List.insertionSort,
      filter_orderedInsert q x _ (List.sorted_insertionSort keyLe t)]
    by_cases hqx : q x
    · rw [if_pos hqx, filter_insertionSort q t, List.filter_cons_of_pos hqx,
        List.insertionSort]
    · rw [if_neg hqx, filter_insertionSort q t, List.filter_cons_of_neg hqx]

end OrderLemmas

section RoundTrip

theorem create_jws_eq (p hdr : List (Str × Json)) (signer : Str → Str) :
    create_jws p signer hdr =
      stripEq (b64Encode (canonicalize (.obj hdr))) ++ 46 ::
        (stripEq (b64Encode (canonicalize (.obj p))) ++ 46 ::
          stripEq (signer (stripEq (b64Encode (canonicalize (.obj hdr))) ++ 46 ::
            stripEq (b64Encode (canonicalize (.obj p)))))) := by
  unfold create_jws
  simp only [List.append_assoc, List.cons_append]

theorem splitOn_create_jws (p hdr : List (Str × Json)) (signer : Str → Str)
    (hsig : ∀ s, 46 ∉ signer s) :
    splitOn 46 (create_jws p signer hdr) =
      [stripEq (b64Encode (canonicalize (.obj hdr))),
       stripEq (b64Encode (canonicalize (.obj p))),
       stripEq (signer (stripEq (b64Encode (canonicalize (.obj hdr))) ++ 46 ::
         stripEq (b64Encode (canonicalize (.obj p)))))] := by
  rw [create_jws_eq, splitOn_append 46 _ _ (no46_stripEq_b64Encode _),
    splitOn_append 46 _ _ (no46_stripEq_b64Encode _),
    splitOn_no_sep 46 _ (no46_stripEq _ (hsig _))]

theorem decode_jws_create (p hdr : List (Str × Json)) (signer : Str → Str)
    (hh : jsonRep (.obj hdr) = true)
    (hsig : ∀ s, 46 ∉ signer s) :
    decode_jws (create_jws p signer hdr) =
      .ok ⟨sortJ (.obj hdr),
           stripEq (b64Encode (canonicalize (.obj p))),
           stripEq (signer (stripEq (b64Encode (canonicalize (.obj hdr))) ++ 46 ::
             stripEq (b64Encode (canonicalize (.obj p))))),
           stripEq (b64Encode (canonicalize (.obj hdr))) ++ 46 ::
             stripEq (b64Encode (canonicalize (.obj p)))⟩ := by
  unfold decode_jws
  rw [splitOn_create_jws p hdr signer hsig]
  dsimp only
  rw [transport_roundtrip _ (canonicalize_bytes _ hh)]
  dsimp only
  rw [utf8Decode_canonicalize _ hh]
  dsimp only
  rw [jsonLoads_canonV _ hh]

theorem decode_jwt_create (p hdr : List (Str × Json)) (signer : Str → Str)
    (hp : jsonRep (.obj p) = true) (hh : jsonRep (.obj hdr) = true)
    (hsig : ∀ s, 46 ∉ signer s) :
    decode_jwt (create_jws p signer hdr) =
      .ok ⟨sortJ (.obj hdr),
           sortJ (.obj p),
           stripEq (signer (stripEq (b64Encode (canonicalize (.obj hdr))) ++ 46 ::
             stripEq (b64Encode (canonicalize (.obj p))))),
           stripEq (b64Encode (canonicalize (.obj hdr))) ++ 46 ::
             stripEq (b64Encode (canonicalize (.obj p)))⟩ := by
  unfold decode_jwt
  rw [decode_jws_create p hdr signer hh hsig]
  dsimp only
  rw [transport_roundtrip _ (canonicalize_bytes _ hp)]
  dsimp only
  rw [utf8Decode_canonicalize _ hp]
  dsimp only
  rw [jsonLoads_canonV _ hp]

end RoundTrip

/-- A reserved payload key of the data model (`iat`, `exp`, `iss`, `sub`,
`sub_jwk`, `aud`). -/
def isReservedKey (k : Str) : Bool :=
  k == strConv "iat" || k == strConv "exp" || k == strConv "iss" ||
  k == strConv "sub" || k == strConv "sub_jwk" || k == strConv "aud"

/-- A key `create_jwt` injects into the payload (`iat`, `exp`, `iss`). -/
def isInjectedKey (k : Str) : Bool :=
  k == strConv "iat" || k == strConv "exp" || k == strConv "iss"

section MergeLemmas

theorem hasKey_forall_ne (m : List (Str × Json)) (k : Str)
    (h : ∀ kv ∈ m, kv.1 ≠ k) : hasKey m k = false := by
  simp only [hasKey, List.any_eq_false, beq_iff_eq]
  exact h

theorem full_payload_eq (p : List (Str × Json)) (issuer : Json) (now : Int)
    (hres : ∀ kv ∈ p, isInjectedKey kv.1 = false)
    (hnd : nodupKeys p = true) :
    dictSet (dictUpdate [(strConv "iat", Json.num now),
        (strConv "exp", Json.num (now + 300))] p) (strConv "iss") issuer =
      [(strConv "iat", Json.num now), (strConv "exp", Json.num (now + 300))] ++
        p ++ [(strConv "iss", issuer)] := by
  have hne : ∀ kv ∈ p, kv.1 ≠ strConv "iat" ∧ kv.1 ≠ strConv "exp" ∧
      kv.1 ≠ strConv "iss" := by
    intro kv hkv
    have := hres kv hkv
    simp only [isInjectedKey, Bool.or_eq_false_iff, beq_eq_false_iff_ne, ne_eq] at this
    exact ⟨this.1.1, this.1.2, this.2⟩
  have hupd : dictUpdate [(strConv "iat", Json.num now),
      (strConv "exp", Json.num (now + 300))] p =
      [(strConv "iat", Json.num now), (strConv "exp", Json.num (now + 300))] ++ p := by
    apply dictUpdate_disjoint p _ _ hnd
    intro kv hkv
    simp only [hasKey, List.any_cons, List.any_nil, Bool.or_false, Bool.or_eq_false_iff]
    constructor
    · exact beq_eq_false_iff_ne.mpr (Ne.symm (hne kv hkv).1)
    · exact beq_eq_false_iff_ne.mpr (Ne.symm (hne kv hkv).2.1)
  rw [hupd, dictSet_missing, List.append_assoc]
  rw [hasKey_append, Bool.or_eq_false_iff]
  constructor
  · rfl
  · exact hasKey_forall_ne p _ (fun kv hkv => (hne kv hkv).2.2)

theorem mem_sortMembers (l : List (Str × Json)) (kv : Str × Json)
    (h : kv ∈ sortMembers l) : ∃ q ∈ l, kv = (q.1, sortJ q.2) := by
  induction l with
  | nil => simp [sortMembers] at h
  | cons q r ih =>
    cases q with
    | mk k v =>
      simp only [sortMembers, List.mem_cons] at h
      rcases h with rfl | h
      · exact ⟨(k, v), by simp⟩
      · obtain ⟨q, hq, he⟩ := ih h
        exact ⟨q, List.mem_cons_of_mem _ hq, he⟩

theorem nodupKeys_full (p : List (Str × Json)) (issuer : Json) (now : Int)
    (hres : ∀ kv ∈ p, isInjectedKey kv.1 = false)
    (hnd : nodupKeys p = true) :
    nodupKeys ([(strConv "iat", Json.num now), (strConv "exp", Json.num (now + 300))] ++
      p ++ [(strConv "iss", issuer)]) = true := by
  have hne : ∀ kv ∈ p, kv.1 ≠ strConv "iat" ∧ kv.1 ≠ strConv "exp" ∧
      kv.1 ≠ strConv "iss" := by
    intro kv hkv
    have := hres kv hkv
    simp only [isInjectedKey, Bool.or_eq_false_iff, beq_eq_false_iff_ne, ne_eq] at this
    exact ⟨this.1.1, this.1.2, this.2⟩
  rw [List.append_assoc]
  apply nodupKeys_append
  · rfl
  · apply nodupKeys_append p [(strConv "iss", issuer)] hnd rfl
    intro kv hkv
    simp only [hasKey, List.any_cons, List.any_nil, Bool.or_false]
    exact beq_eq_false_iff_ne.mpr (Ne.symm (hne kv hkv).2.2)
  · intro kv hkv
    simp only [List.mem_cons, List.not_mem_nil, or_false] at hkv
    rw [hasKey_append, Bool.or_eq_false_iff]
    rcases hkv with rfl | rfl
    · exact ⟨hasKey_forall_ne p _ (fun kv hkv => (hne kv hkv).1), rfl⟩
    · exact ⟨hasKey_forall_ne p _ (fun kv hkv => (hne kv hkv).2.1), rfl⟩

theorem jsonRepObj_full (p : List (Str × Json)) (issuer : Json) (now : Int)
    (hp : jsonRepObj p = true) (hiss : jsonRep issuer = true) :
    jsonRepObj ([(strConv "iat", Json.num now), (strConv "exp", Json.num (now + 300))] ++
      p ++ [(strConv "iss", issuer)]) = true := by
  rw [jsonRepObj_forall]
  intro kv hkv
  simp only [List.mem_append, List.mem_cons, List.not_mem_nil, or_false] at hkv
  rcases hkv with ((rfl | rfl) | hkv) | rfl
  · exact ⟨rfl, rfl⟩
  · exact ⟨rfl, rfl⟩
  · exact (jsonRepObj_forall p).mp hp kv hkv
  · exact ⟨rfl, hiss⟩

theorem jsonRep_full (p : List (Str × Json)) (issuer : Json) (now : Int)
    (hp : jsonRep (.obj p) = true) (hiss : jsonRep issuer = true)
    (hres : ∀ kv ∈ p, isInjectedKey kv.1 = false) :
    jsonRep (.obj ([(strConv "iat", Json.num now), (strConv "exp", Json.num (now + 300))] ++
      p ++ [(strConv "iss", issuer)])) = true := by
  simp only [jsonRep, Bool.and_eq_true] at hp ⊢
  exact ⟨nodupKeys_full p issuer now hres hp.1, jsonRepObj_full p issuer now hp.2 hiss⟩

theorem filter_sorted_full (p : List (Str × Json)) (issuer : Json) (now : Int)
    (hres : ∀ kv ∈ p, isInjectedKey kv.1 = false) :
    (List.insertionSort keyLe (sortMembers
        ([(strConv "iat", Json.num now), (strConv "exp", Json.num (now + 300))] ++
          p ++ [(strConv "iss", issuer)]))).filter (fun kv => !isInjectedKey kv.1) =
      List.insertionSort keyLe (sortMembers p) := by
  rw [filter_insertionSort]
  congr 1
  rw [sortMembers_append, sortMembers_append, List.filter_append, List.filter_append]
  have h1 : (sortMembers [(strConv "iat", Json.num now),
      (strConv "exp", Json.num (now + 300))]).filter (fun kv => !isInjectedKey kv.1) = [] := rfl
  have h3 : (sortMembers [(strConv "iss", issuer)]).filter
      (fun kv => !isInjectedKey kv.1) = [] := rfl
  have h2 : (sortMembers p).filter (fun kv => !isInjectedKey kv.1) = sortMembers p := by
    rw [List.filter_eq_self]
    intro kv hkv
    obtain ⟨q, hq, rfl⟩ := mem_sortMembers p kv hkv
    simp only [Bool.not_eq_true']
    exact hres q hq
  rw [h1, h2, h3, List.nil_append, List.append_nil]

end MergeLemmas

section LookupLemmas

theorem olookup_none_of_hasKey_false (d : List (Str × Json)) (k : Str)
    (h : hasKey d k = false) : olookup d k = none := by
  induction d with
  | nil => rfl
  | cons kv r ih =>
    cases kv with
    | mk k2 v2 =>
      simp only [hasKey, List.any_cons, Bool.or_eq_false_iff, beq_eq_false_iff_ne, ne_eq] at h
      simp only [olookup, if_neg h.1]
      exact ih (by simp [hasKey, h.2])

theorem olookup_map_replace_same : ∀ d : List (Str × Json), ∀ k v, hasKey d k = true →
    olookup (d.map (fun kv => if kv.1 = k then (k, v) else kv)) k = some v
  | [], k, v, h => by simp [hasKey] at h
  | (k2, v2) :: r, k, v, h => by
    simp only [List.map_cons]
    by_cases hk : k2 = k
    · subst hk
      have h1 : (if (k2, v2).1 = k2 then (k2, v) else (k2, v2)) = (k2, v) := if_pos rfl
      rw [h1]
      simp [olookup]
    · have hr : hasKey r k = true := by
        simpa [hasKey, hk] using h
      have h1 : (if (k2, v2).1 = k then (k, v) else (k2, v2)) = (k2, v2) := if_neg hk
      rw [h1]
      simp only [olookup, if_neg hk]
      exact olookup_map_replace_same r k v hr

theorem olookup_map_replace_other : ∀ d : List (Str × Json), ∀ k v k2, k ≠ k2 →
    olookup (d.map (fun kv => if kv.1 = k then (k, v) else kv)) k2 = olookup d k2
  | [], _, _, _, _ => rfl
  | (k3, v3) :: r, k, v, k2, hne => by
    simp only [List.map_cons]
    by_cases hk : k3 = k
    · subst hk
      have h1 : (if (k3, v3).1 = k3 then (k3, v) else (k3, v3)) = (k3, v) := if_pos rfl
      rw [h1]
      simp only [olookup, if_neg hne, if_neg (Ne.symm hne)]
      exact olookup_map_replace_other r k3 v k2 hne
    · have h1 : (if (k3, v3).1 = k then (k, v) else (k3, v3)) = (k3, v3) := if_neg hk
      rw [h1]
      by_cases hk2 : k3 = k2
      · subst hk2
        simp [olookup]
      · simp only [olookup, if_neg hk2]
        exact olookup_map_replace_other r k v k2 hne

theorem olookup_append_right (a b : List (Str × Json)) (k : Str)
    (h : hasKey a k = false) : olookup (a ++ b) k = olookup b k := by
  induction a with
  | nil => rfl
  | cons kv r ih =>
    cases kv with
    | mk k2 v2 =>
      simp only [hasKey, List.any_cons, Bool.or_eq_false_iff, beq_eq_false_iff_ne, ne_eq] at h
      simp only [List.cons_append, olookup, if_neg h.1]
      exact ih (by simp [hasKey, h.2])

theorem olookup_dictSet_same (d : List (Str × Json)) (k : Str) (v : Json) :
    olookup (dictSet d k v) k = some v := by
  unfold dictSet
  by_cases hk : hasKey d k
  · rw [if_pos hk]
    exact olookup_map_replace_same d k v hk
  · rw [if_neg hk]
    rw [olookup_append_right d _ k (by simpa using hk)]
    simp [olookup]

theorem olookup_append_single (d : List (Str × Json)) (k : Str) (v : Json) (k2 : Str)
    (h : k ≠ k2) : olookup (d ++ [(k, v)]) k2 = olookup d k2 := by
  induction d with
  | nil => simp [olookup, h]
  | cons kv r ih =>
    cases kv with
    | mk k3 v3 =>
      by_cases hk3 : k3 = k2
      · subst hk3
        simp [olookup]
      · simp only [List.cons_append, olookup, if_neg hk3]
        exact ih

theorem olookup_dictSet_other (d : List (Str × Json)) (k : Str) (v : Json) (k2 : Str)
    (h : k ≠ k2) : olookup (dictSet d k v) k2 = olookup d k2 := by
  unfold dictSet
  by_cases hk : hasKey d k
  · rw [if_pos hk]
    exact olookup_map_replace_other d k v k2 h
  · rw [if_neg hk]
    exact olookup_append_single d k v k2 h

theorem olookup_dictUpdate_notmem : ∀ b a : List (Str × Json), ∀ k, hasKey b k = false →
    olookup (dictUpdate a b) k = olookup a k
  | [], _, _, _ => rfl
  | kv :: b, a, k, h => by
    cases kv with
    | mk k2 v2 =>
      simp only [hasKey, List.any_cons, Bool.or_eq_false_iff, beq_eq_false_iff_ne, ne_eq] at h
      show olookup (dictUpdate (dictSet a k2 v2) b) k = _
      rw [olookup_dictUpdate_notmem b (dictSet a k2 v2) k (by simp [hasKey, h.2]),
        olookup_dictSet_other a k2 v2 k h.1]

theorem olookup_dictUpdate_mem : ∀ b a : List (Str × Json), ∀ k, hasKey b k = true →
    nodupKeys b = true → olookup (dictUpdate a b) k = olookup b k
  | [], a, k, h, _ => by simp [hasKey] at h
  | kv :: b, a, k, h, hnd => by
    cases kv with
    | mk k2 v2 =>
      by_cases hk : k2 = k
      · subst hk
        have hb : hasKey b k2 = false := by
          apply hasKey_forall_ne
          exact nodupKeys_key_notin k2 v2 b hnd
        show olookup (dictUpdate (dictSet a k2 v2) b) k2 = _
        rw [olookup_dictUpdate_notmem b _ k2 hb, olookup_dictSet_same]
        simp [olookup]
      · have hb : hasKey b k = true := by
          simpa [hasKey, hk] using h
        show olookup (dictUpdate (dictSet a k2 v2) b) k = _
        rw [olookup_dictUpdate_mem b (dictSet a k2 v2) k hb (nodupKeys_tail k2 v2 b hnd)]
        simp [olookup, hk]

end LookupLemmas

section ErrorClass

theorem exmap_eq_error {α β : Type} (f : α → β) (x : Except PyErr α) (e : PyErr)
    (h : Except.map f x = .error e) : x = .error e := by
  cases x with
  | ok a => simp [Except.map] at h
  | error e2 => simpa [Except.map] using h

theorem exbind_eq_error {α β : Type} (x : Except PyErr α) (f : α → Except PyErr β) (e : PyErr)
    (h : (do let a ← x; f a) = .error e) :
    x = .error e ∨ ∃ a, x = .ok a ∧ f a = .error e := by
  cases x with
  | ok a => exact Or.inr ⟨a, rfl, h⟩
  | error e2 => exact Or.inl (by simpa [Bind.bind, Except.bind] using h)

theorem b64Decode_error : ∀ s : Str, ∀ e, b64Decode s = .error e → e = .b64Error
  | [], e, h => by simp [b64Decode] at h
  | [a], e, h => by
    simp only [b64Decode, Except.error.injEq] at h
    exact h.symm
  | [a, b], e, h => by
    simp only [b64Decode, Except.error.injEq] at h
    exact h.symm
  | [a, b, c], e, h => by
    simp only [b64Decode, Except.error.injEq] at h
    exact h.symm
  | a :: b :: c :: d :: rest, e, h => by
    simp only [b64Decode] at h
    cases hda : b64DecChar a with
    | none =>
      rw [hda] at h
      simp only [Option.elim, Except.error.injEq] at h
      exact h.symm
    | some x =>
      rw [hda] at h
      simp only [Option.elim] at h
      cases hdb : b64DecChar b with
      | none =>
        rw [hdb] at h
        simp only [Option.elim, Except.error.injEq] at h
        exact h.symm
      | some y =>
        rw [hdb] at h
        simp only [Option.elim] at h
        by_cases hc61 : c = 61
        · rw [if_pos hc61] at h
          split_ifs at h with hpad
          all_goals simp_all
        · rw [if_neg hc61] at h
          cases hdc : b64DecChar c with
          | none =>
            rw [hdc] at h
            simp only [Option.elim, Except.error.injEq] at h
            exact h.symm
          | some z =>
            rw [hdc] at h
            simp only [Option.elim] at h
            by_cases hd61 : d = 61
            · rw [if_pos hd61] at h
              split_ifs at h with hrest
              all_goals simp_all
            · rw [if_neg hd61] at h
              cases hdd : b64DecChar d with
              | none =>
                rw [hdd] at h
                simp only [Option.elim, Except.error.injEq] at h
                exact h.symm
              | some w =>
                rw [hdd] at h
                simp only [Option.elim] at h
                exact b64Decode_error rest e (exmap_eq_error _ _ _ h)

end ErrorClass

section ErrorClass2

theorem err_eq {α : Type} {e2 e : PyErr}
    (h : (Except.error e2 : Except PyErr α) = .error e) : e = e2 := by
  injection h with h2
  exact h2.symm

mutual

theorem utf8Decode_error : ∀ bs : List Nat, ∀ e, utf8Decode bs = .error e → e = .utf8Error
  | [], e, h => by simp [utf8Decode] at h
  | b :: r, e, h => by
    simp only [utf8Decode] at h
    split_ifs at h with h1 h2 h3 h4 h5
    · exact utf8Decode_error r e (exmap_eq_error _ _ _ h)
    · exact err_eq h
    · exact utf8Cont2_error b r e h
    · exact utf8Cont3_error b r e h
    · exact utf8Cont4_error b r e h
    · exact err_eq h

theorem utf8Cont2_error : ∀ b : Nat, ∀ bs : List Nat, ∀ e,
    utf8Cont2 b bs = .error e → e = .utf8Error
  | b, b2 :: r2, e, h => by
    simp only [utf8Cont2] at h
    split_ifs at h with h1
    · exact utf8Decode_error r2 e (exmap_eq_error _ _ _ h)
    · exact err_eq h
  | b, [], e, h => by
    simp only [utf8Cont2, Except.error.injEq] at h
    exact h.symm

theorem utf8Cont3_error : ∀ b : Nat, ∀ bs : List Nat, ∀ e,
    utf8Cont3 b bs = .error e → e = .utf8Error
  | b, b2 :: b3 :: r2, e, h => by
    simp only [utf8Cont3] at h
    split_ifs at h with h1 h2
    · exact utf8Decode_error r2 e (exmap_eq_error _ _ _ h)
    · exact err_eq h
    · exact err_eq h
  | b, [], e, h => by
    simp only [utf8Cont3, Except.error.injEq] at h
    exact h.symm
  | b, [b2], e, h => by
    simp only [utf8Cont3, Except.error.injEq] at h
    exact h.symm

theorem utf8Cont4_error : ∀ b : Nat, ∀ bs : List Nat, ∀ e,
    utf8Cont4 b bs = .error e → e = .utf8Error
  | b, b2 :: b3 :: b4 :: r2, e, h => by
    simp only [utf8Cont4] at h
    split_ifs at h with h1 h2
    · exact utf8Decode_error r2 e (exmap_eq_error _ _ _ h)
    · exact err_eq h
    · exact err_eq h
  | b, [], e, h => by
    simp only [utf8Cont4, Except.error.injEq] at h
    exact h.symm
  | b, [b2], e, h => by
    simp only [utf8Cont4, Except.error.injEq] at h
    exact h.symm
  | b, [b2, b3], e, h => by
    simp only [utf8Cont4, Except.error.injEq] at h
    exact h.symm

end

theorem parseNum_error : ∀ s : Str, ∀ e, parseNum s = .error e → e = .jsonError
  | [], e, h => by
    simp only [parseNum, Except.error.injEq] at h
    exact h.symm
  | c :: r, e, h => by
    simp only [parseNum] at h
    split_ifs at h <;> simp_all

theorem parseStrBody_error (s0 : Str) (e0 : PyErr) (h0 : parseStrBody s0 = .error e0) :
    e0 = .jsonError := by
  suffices hs : ∀ n, ∀ s : Str, s.length ≤ n → ∀ e, parseStrBody s = .error e →
      e = .jsonError from hs s0.length s0 le_rfl e0 h0
  intro n
  induction n using Nat.strong_induction_on with
  | _ n ih =>
    intro s hn e h
    cases s with
    | nil => exact err_eq h
    | cons c r =>
      rw [parseStrBody.eq_def] at h
      dsimp only at h
      simp only [List.length_cons] at hn
      by_cases h34 : c = 34
      · rw [if_pos h34] at h
        simp at h
      · rw [if_neg h34] at h
        by_cases h92 : c = 92
        · rw [if_pos h92] at h
          cases r with
          | nil => exact err_eq h
          | cons e2 r2 =>
            dsimp only at h
            simp only [List.length_cons] at hn
            split_ifs at h with hA hB hC hD hE hF hG
            · exact ih (n - 1) (by omega) r2 (by omega) e (exmap_eq_error _ _ _ h)
            · exact ih (n - 1) (by omega) r2 (by omega) e (exmap_eq_error _ _ _ h)
            · exact ih (n - 1) (by omega) r2 (by omega) e (exmap_eq_error _ _ _ h)
            · exact ih (n - 1) (by omega) r2 (by omega) e (exmap_eq_error _ _ _ h)
            · exact ih (n - 1) (by omega) r2 (by omega) e (exmap_eq_error _ _ _ h)
            · exact ih (n - 1) (by omega) r2 (by omega) e (exmap_eq_error _ _ _ h)
            · cases r2 with
              | nil => exact err_eq h
              | cons x1 r2a =>
                cases r2a with
                | nil => exact err_eq h
                | cons x2 r2b =>
                  cases r2b with
                  | nil => exact err_eq h
                  | cons x3 r2c =>
                    cases r2c with
                    | nil => exact err_eq h
                    | cons x4 r3 =>
                      dsimp only at h
                      simp only [List.length_cons] at hn
                      cases hh : hex4 x1 x2 x3 x4 with
                      | none =>
                        rw [hh] at h
                        exact err_eq h
                      | some v =>
                        rw [hh] at h
                        simp only [Option.elim] at h
                        exact ih (n - 1) (by omega) r3 (by omega) e
                          (exmap_eq_error _ _ _ h)
            · exact err_eq h
        · rw [if_neg h92] at h
          split_ifs at h with hlt
          · exact err_eq h
          · exact ih (n - 1) (by omega) r (by omega) e (exmap_eq_error _ _ _ h)

end ErrorClass2

section ErrorClass3

theorem parseVal_zero (s : Str) : parseVal 0 s = .error .jsonError := rfl

theorem parseTok_zero (s : Str) : parseTok 0 s = .error .jsonError := rfl

theorem parseArrBody_zero (s : Str) : parseArrBody 0 s = .error .jsonError := rfl

theorem parseItems_zero (s : Str) : parseItems 0 s = .error .jsonError := rfl

theorem parseItemsSep_zero (v : Json) (s : Str) : parseItemsSep 0 v s = .error .jsonError := rfl

theorem parseObjBody_zero (s : Str) : parseObjBody 0 s = .error .jsonError := rfl

theorem parseMembers_zero (s : Str) : parseMembers 0 s = .error .jsonError := rfl

theorem parseMemberColon_zero (k : Str) (s : Str) :
    parseMemberColon 0 k s = .error .jsonError := rfl

theorem parseMembersSep_zero (k : Str) (v : Json) (s : Str) :
    parseMembersSep 0 k v s = .error .jsonError := rfl

theorem parseTok_succ_nil (fuel : Nat) : parseTok (fuel + 1) [] = .error .jsonError := rfl

theorem parseArrBody_succ_nil (fuel : Nat) :
    parseArrBody (fuel + 1) [] = .error .jsonError := rfl

theorem parseItemsSep_succ_nil (fuel : Nat) (v : Json) :
    parseItemsSep (fuel + 1) v [] = .error .jsonError := rfl

theorem parseObjBody_succ_nil (fuel : Nat) :
    parseObjBody (fuel + 1) [] = .error .jsonError := rfl

theorem parseMembers_succ_nil (fuel : Nat) :
    parseMembers (fuel + 1) [] = .error .jsonError := rfl

theorem parseMemberColon_succ_nil (fuel : Nat) (k : Str) :
    parseMemberColon (fuel + 1) k [] = .error .jsonError := rfl

theorem parseMembersSep_succ_nil (fuel : Nat) (k : Str) (v : Json) :
    parseMembersSep (fuel + 1) k v [] = .error .jsonError := rfl

set_option maxHeartbeats 1000000 in
/-- Every failure of the parser family is the JSON format error. -/
theorem parse_error_class (fuel : Nat) :
    (∀ s e, parseVal fuel s = .error e → e = .jsonError) ∧
    (∀ s e, parseTok fuel s = .error e → e = .jsonError) ∧
    (∀ s e, parseArrBody fuel s = .error e → e = .jsonError) ∧
    (∀ s e, parseItems fuel s = .error e → e = .jsonError) ∧
    (∀ v s e, parseItemsSep fuel v s = .error e → e = .jsonError) ∧
    (∀ s e, parseObjBody fuel s = .error e → e = .jsonError) ∧
    (∀ s e, parseMembers fuel s = .error e → e = .jsonError) ∧
    (∀ k s e, parseMemberColon fuel k s = .error e → e = .jsonError) ∧
    (∀ k v s e, parseMembersSep fuel k v s = .error e → e = .jsonError) := by
  induction fuel with
  | zero =>
    refine ⟨?_, ?_, ?_, ?_, ?_, ?_, ?_, ?_, ?_⟩
    · exact fun s e h => err_eq ((parseVal_zero s) ▸ h)
    · exact fun s e h => err_eq ((parseTok_zero s) ▸ h)
    · exact fun s e h => err_eq ((parseArrBody_zero s) ▸ h)
    · exact fun s e h => err_eq ((parseItems_zero s) ▸ h)
    · exact fun v s e h => err_eq ((parseItemsSep_zero v s) ▸ h)
    · exact fun s e h => err_eq ((parseObjBody_zero s) ▸ h)
    · exact fun s e h => err_eq ((parseMembers_zero s) ▸ h)
    · exact fun k s e h => err_eq ((parseMemberColon_zero k s) ▸ h)
    · exact fun k v s e h => err_eq ((parseMembersSep_zero k v s) ▸ h)
  | succ fuel ih =>
    obtain ⟨ihV, ihT, ihA, ihI, ihIS, ihO, ihM, ihMC, ihMS⟩ := ih
    refine ⟨?_, ?_, ?_, ?_, ?_, ?_, ?_, ?_, ?_⟩
    · intro s e h
      rw [parseVal_succ] at h
      exact ihT _ e h
    · intro s e h
      cases s with
      | nil =>
        rw [parseTok_succ_nil] at h
        exact err_eq h
      | cons c r =>
        rw [parseTok_succ_cons] at h
        split_ifs at h with h110 h116 h102 h34 h91 h123 hnum
        all_goals try split at h
        all_goals first
        | exact h.symm
        | exact err_eq h
        | simp at h
        | exact parseStrBody_error _ e (exmap_eq_error _ _ _ h)
        | exact ihA _ e h
        | exact ihO _ e h
        | exact parseNum_error _ e (exmap_eq_error _ _ _ h)
    · intro s e h
      cases s with
      | nil =>
        rw [parseArrBody_succ_nil] at h
        exact err_eq h
      | cons c r =>
        rw [parseArrBody_succ_cons] at h
        split_ifs at h with h93
        all_goals first
        | exact h.symm
        | exact err_eq h
        | simp at h
        | exact ihI _ e (exmap_eq_error _ _ _ h)
    · intro s e h
      rw [parseItems_succ] at h
      rcases exbind_eq_error _ _ _ h with herr | ⟨p, _, herr⟩
      · exact ihV s e herr
      · exact ihIS p.1 (skipWs p.2) e herr
    · intro v s e h
      cases s with
      | nil =>
        rw [parseItemsSep_succ_nil] at h
        exact err_eq h
      | cons c r =>
        rw [parseItemsSep_succ_cons] at h
        split_ifs at h with h44 h93
        all_goals first
        | exact h.symm
        | exact err_eq h
        | simp at h
        | exact ihI _ e (exmap_eq_error _ _ _ h)
    · intro s e h
      cases s with
      | nil =>
        rw [parseObjBody_succ_nil] at h
        exact err_eq h
      | cons c r =>
        rw [parseObjBody_succ_cons] at h
        split_ifs at h with h125
        all_goals first
        | exact h.symm
        | exact err_eq h
        | simp at h
        | exact ihM _ e (exmap_eq_error _ _ _ h)
    · intro s e h
      cases s with
      | nil =>
        rw [parseMembers_succ_nil] at h
        exact err_eq h
      | cons c r =>
        rw [parseMembers_succ_cons] at h
        split_ifs at h with h34
        all_goals try first | exact h.symm | exact err_eq h
        all_goals rcases exbind_eq_error _ _ _ h with herr | ⟨kp, _, herr⟩
        all_goals first
        | exact parseStrBody_error _ e herr
        | exact ihMC _ _ e herr
    · intro k s e h
      cases s with
      | nil =>
        rw [parseMemberColon_succ_nil] at h
        exact err_eq h
      | cons c r =>
        rw [parseMemberColon_succ_cons] at h
        split_ifs at h with h58
        all_goals try first | exact h.symm | exact err_eq h
        all_goals rcases exbind_eq_error _ _ _ h with herr | ⟨vp, _, herr⟩
        all_goals first
        | exact ihV _ e herr
        | exact ihMS _ _ _ e herr
    · intro k v s e h
      cases s with
      | nil =>
        rw [parseMembersSep_succ_nil] at h
        exact err_eq h
      | cons c r =>
        rw [parseMembersSep_succ_cons] at h
        split_ifs at h with h44 h125
        all_goals first
        | exact h.symm
        | exact err_eq h
        | simp at h
        | exact ihM _ e (exmap_eq_error _ _ _ h)

/-- Every failure of `jsonLoads` is the JSON format error. -/
theorem jsonLoads_error (s : Str) (e : PyErr) (h : jsonLoads s = .error e) :
    e = .jsonError := by
  unfold jsonLoads at h
  rcases exbind_eq_error _ _ _ h with herr | ⟨p, _, herr⟩
  · exact (parse_error_class (4 * s.length + 4)).1 s e herr
  · split_ifs at herr with hsk
    all_goals first
    | exact herr.symm
    | exact err_eq herr

end ErrorClass3

section ErrorClass4

/-- The format errors: what the decoding stage can raise. -/
def isFormatError (e : PyErr) : Bool :=
  e == .assertFail "" || e == .b64Error || e == .utf8Error || e == .jsonError

theorem decode_jws_error (jws : Str) (e : PyErr) (h : decode_jws jws = .error e) :
    isFormatError e = true := by
  unfold decode_jws at h
  split at h
  · rename_i p0 p1 p2
    split at h
    · rename_i e1 hb
      injection h with h2
      subst h2
      have := b64Decode_error _ e1 hb
      subst this
      rfl
    · rename_i bs hb
      split at h
      · rename_i e1 hu
        injection h with h2
        subst h2
        have := utf8Decode_error _ e1 hu
        subst this
        rfl
      · rename_i hs hu
        split at h
        · rename_i e1 hj
          injection h with h2
          subst h2
          have := jsonLoads_error _ e1 hj
          subst this
          rfl
        · simp at h
  · injection h with h2
    subst h2
    rfl

theorem decode_jwt_error (jwt : Str) (e : PyErr) (h : decode_jwt jwt = .error e) :
    isFormatError e = true := by
  unfold decode_jwt at h
  split at h
  · rename_i e1 hd
    injection h with h2
    subst h2
    exact decode_jws_error jwt e1 hd
  · rename_i jws hd
    split at h
    · rename_i e1 hb
      injection h with h2
      subst h2
      have := b64Decode_error _ e1 hb
      subst this
      rfl
    · rename_i bs hb
      split at h
      · rename_i e1 hu
        injection h with h2
        subst h2
        have := utf8Decode_error _ e1 hu
        subst this
        rfl
      · rename_i hs hu
        split at h
        · rename_i e1 hj
          injection h with h2
          subst h2
          have := jsonLoads_error _ e1 hj
          subst this
          rfl
        · simp at h

theorem verify_jwt_decode_error (jwt : Str) (config : VerifyConfig)
    (resolve : Json → VerifyConfig → Except PyErr Json)
    (verifyES : Str → Str → Json → Except PyErr Bool) (now : Int) (e : PyErr)
    (h : decode_jwt jwt = .error e) :
    verify_jwt jwt config resolve verifyES now = .error e := by
  unfold verify_jwt
  rw [h]

end ErrorClass4

section Claims

/-- C1: for every JSON-representable payload containing none of the reserved
keys (`iat`, `exp`, `iss`, `sub`, `sub_jwk`, `aud`), parsing a token produced
by `create_jwt` with `decode_jwt` and removing the injected `iat`, `exp` and
`iss` entries from the parsed payload yields exactly the original payload —
in its key-order normal form `sortJ`, the order `json.loads` returns members
of a canonically serialized object in; Python dict equality is insensitive
to this order.  The signer is assumed to return dot-free signatures (as
base64url signatures are), since the compact form reserves the dot. -/
theorem C1_create_parse_roundtrip (p hdr : List (Str × Json)) (options : CreateOptions)
    (now : Int)
    (hp : jsonRep (.obj p) = true) (hh : jsonRep (.obj hdr) = true)
    (hiss : jsonRep options.issuer = true)
    (hres : ∀ kv ∈ p, isReservedKey kv.1 = false)
    (hsig : ∀ s, 46 ∉ options.signer s) :
    ∃ d : DecodedJwt, decode_jwt (create_jwt p options hdr now) = .ok d ∧
      ∃ pm, d.payload = .obj pm ∧
        Json.obj (pm.filter (fun kv => !isInjectedKey kv.1)) = sortJ (.obj p) := by
  have hinj : ∀ kv ∈ p, isInjectedKey kv.1 = false := by
    intro kv hkv
    have hr := hres kv hkv
    simp only [isReservedKey, Bool.or_eq_false_iff] at hr
    simp only [isInjectedKey, Bool.or_eq_false_iff]
    exact ⟨⟨hr.1.1.1.1.1, hr.1.1.1.1.2⟩, hr.1.1.1.2⟩
  have hnd : nodupKeys p = true := by
    simp only [jsonRep, Bool.and_eq_true] at hp
    exact hp.1
  have hcj : create_jwt p options hdr now =
      create_jws (dictSet (dictUpdate [(strConv "iat", Json.num now),
        (strConv "exp", Json.num (now + 300))] p) (strConv "iss") options.issuer)
        options.signer hdr := rfl
  rw [hcj, full_payload_eq p options.issuer now hinj hnd,
    decode_jwt_create _ hdr options.signer
      (jsonRep_full p options.issuer now hp hiss hinj) hh hsig]
  refine ⟨_, rfl, List.insertionSort keyLe (sortMembers
    ([(strConv "iat", Json.num now), (strConv "exp", Json.num (now + 300))] ++
      p ++ [(strConv "iss", options.issuer)])), rfl, ?_⟩
  rw [filter_sorted_full p options.issuer now hinj]
  rfl

/-- C1 witness: a concrete payload round-trips through create and decode. -/
theorem C1_witness :
    ∃ d : DecodedJwt,
      decode_jwt (create_jwt [(strConv "a", Json.num 1)]
        ⟨.str (strConv "did:ex:i"), fun _ => strConv "SIG"⟩
        [(strConv "alg", Json.str (strConv "ES256K"))] 1000) = .ok d ∧
      ∃ pm, d.payload = .obj pm ∧
        Json.obj (pm.filter (fun kv => !isInjectedKey kv.1)) =
          sortJ (.obj [(strConv "a", Json.num 1)]) :=
  C1_create_parse_roundtrip [(strConv "a", Json.num 1)]
    [(strConv "alg", Json.str (strConv "ES256K"))]
    ⟨.str (strConv "did:ex:i"), fun _ => strConv "SIG"⟩ 1000
    rfl rfl rfl (by decide) (fun s => by show 46 ∉ strConv "SIG"; decide)

/-- C2: the temporal validation of `verify_jwt` (skew 300) accepts exactly
when `iat ≤ now + 300` and `exp > now - 300`; it rejects as issued-in-future
when `iat > now + 300` and as expired when `exp ≤ now - 300`, equality at the
`exp` boundary counting as expired. -/
theorem C2_temporal_bounds (m : List (Str × Json)) (iat exp now : Int)
    (hiat : olookup m (strConv "iat") = some (.num iat))
    (hexp : olookup m (strConv "exp") = some (.num exp)) :
    validate_time (.obj m) now =
      (if iat > now + 300 then .error (.assertFail "Issue time is in the future")
       else if exp ≤ now - 300 then .error (.assertFail "Expired JWT")
       else .ok ()) := by
  have h1 : pyGet m (strConv "exp") = some (.num exp) := by
    unfold pyGet
    rw [hexp]
  have h2 : pyGet m (strConv "iat") = some (.num iat) := by
    unfold pyGet
    rw [hiat]
  unfold validate_time
  dsimp only [pyGetJ]
  rw [h1, h2]
  rfl

/-- C2 witness: at `now = 1000`, `iat = 1000` and `exp = 1300` pass both
boundary checks. -/
theorem C2_witness :
    validate_time (.obj [(strConv "iat", Json.num 1000), (strConv "exp", Json.num 1300)])
      1000 =
      (if (1000 : Int) > 1000 + 300 then .error (.assertFail "Issue time is in the future")
       else if (1300 : Int) ≤ 1000 - 300 then .error (.assertFail "Expired JWT")
       else .ok ()) :=
  C2_temporal_bounds [(strConv "iat", Json.num 1000), (strConv "exp", Json.num 1300)]
    1000 1300 1000 rfl rfl

/-- C3: `create_jwt` builds the signed payload from
`{iat = now, exp = now + 300}`, overlaid with the caller payload (a
caller-supplied entry wins at every key, in particular `iat` and `exp`) and
then forces `iss = options.issuer` (a caller-supplied `iss` is never kept);
the merged payload is delegated to `create_jws` with `options.signer` and
the given header. -/
theorem C3_merge_precedence (p : List (Str × Json)) (options : CreateOptions)
    (header : List (Str × Json)) (now : Int) (hnd : nodupKeys p = true) :
    ∀ full, full = dictSet (dictUpdate [(strConv "iat", Json.num now),
        (strConv "exp", Json.num (now + 300))] p) (strConv "iss") options.issuer →
      create_jwt p options header now = create_jws full options.signer header ∧
      olookup full (strConv "iss") = some options.issuer ∧
      (∀ k, k ≠ strConv "iss" → hasKey p k = true → olookup full k = olookup p k) ∧
      (hasKey p (strConv "iat") = false →
        olookup full (strConv "iat") = some (Json.num now)) ∧
      (hasKey p (strConv "exp") = false →
        olookup full (strConv "exp") = some (Json.num (now + 300))) := by
  intro full hfull
  subst hfull
  refine ⟨rfl, olookup_dictSet_same _ _ _, ?_, ?_, ?_⟩
  · intro k hek hpk
    rw [olookup_dictSet_other _ _ _ _ (Ne.symm hek), olookup_dictUpdate_mem p _ k hpk hnd]
  · intro hpk
    rw [olookup_dictSet_other _ _ _ _ (by decide), olookup_dictUpdate_notmem p _ _ hpk]
    rfl
  · intro hpk
    rw [olookup_dictSet_other _ _ _ _ (by decide), olookup_dictUpdate_notmem p _ _ hpk]
    rfl

/-- C3 witness: a caller-supplied `iat` overrides the injected one and a
caller-supplied `iss` is replaced by the configured issuer. -/
theorem C3_witness :
    create_jwt [(strConv "iat", Json.num 7)] ⟨.str (strConv "I"), fun _ => []⟩ [] 1000 =
      create_jws (dictSet (dictUpdate [(strConv "iat", Json.num 1000),
        (strConv "exp", Json.num (1000 + 300))] [(strConv "iat", Json.num 7)])
        (strConv "iss") (Json.str (strConv "I"))) (fun _ => []) [] ∧
    olookup (dictSet (dictUpdate [(strConv "iat", Json.num 1000),
        (strConv "exp", Json.num (1000 + 300))] [(strConv "iat", Json.num 7)])
        (strConv "iss") (Json.str (strConv "I"))) (strConv "iss") =
      some (Json.str (strConv "I")) ∧
    (∀ k, k ≠ strConv "iss" → hasKey [(strConv "iat", Json.num 7)] k = true →
      olookup (dictSet (dictUpdate [(strConv "iat", Json.num 1000),
        (strConv "exp", Json.num (1000 + 300))] [(strConv "iat", Json.num 7)])
        (strConv "iss") (Json.str (strConv "I"))) k =
      olookup [(strConv "iat", Json.num 7)] k) ∧
    (hasKey [(strConv "iat", Json.num 7)] (strConv "iat") = false →
      olookup (dictSet (dictUpdate [(strConv "iat", Json.num 1000),
        (strConv "exp", Json.num (1000 + 300))] [(strConv "iat", Json.num 7)])
        (strConv "iss") (Json.str (strConv "I"))) (strConv "iat") =
      some (Json.num 1000)) ∧
    (hasKey [(strConv "iat", Json.num 7)] (strConv "exp") = false →
      olookup (dictSet (dictUpdate [(strConv "iat", Json.num 1000),
        (strConv "exp", Json.num (1000 + 300))] [(strConv "iat", Json.num 7)])
        (strConv "iss") (Json.str (strConv "I"))) (strConv "exp") =
      some (Json.num (1000 + 300))) :=
  C3_merge_precedence [(strConv "iat", Json.num 7)] ⟨.str (strConv "I"), fun _ => []⟩
    [] 1000 rfl _ rfl

/-- C4: the subject-DID determination of `verify_jwt` — missing `iss` is the
"Missing issuer" rejection; a non-self-issued `iss` is itself the DID; for
the self-issued issuer a missing `sub` is the "Missing subject" rejection,
the DID is `sub` when `sub_jwk` is absent, and otherwise the part of
`header.kid` before the first `#`. -/
theorem C4_subject_did (hd pl : List (Str × Json)) :
    (pyGet pl (strConv "iss") = none →
      subject_did (.obj hd) (.obj pl) = .error (.assertFail "Missing issuer")) ∧
    (∀ iss, pyGet pl (strConv "iss") = some iss →
      jeq iss (.str (strConv "https://self-issued.me/v2")) = false →
      subject_did (.obj hd) (.obj pl) = .ok iss) ∧
    (pyGet pl (strConv "iss") = some (.str (strConv "https://self-issued.me/v2")) →
      pyGet pl (strConv "sub") = none →
      subject_did (.obj hd) (.obj pl) = .error (.assertFail "Missing subject")) ∧
    (∀ sub, pyGet pl (strConv "iss") = some (.str (strConv "https://self-issued.me/v2")) →
      pyGet pl (strConv "sub") = some sub → pyGet pl (strConv "sub_jwk") = none →
      subject_did (.obj hd) (.obj pl) = .ok sub) ∧
    (∀ sub jwk ks,
      pyGet pl (strConv "iss") = some (.str (strConv "https://self-issued.me/v2")) →
      pyGet pl (strConv "sub") = some sub → pyGet pl (strConv "sub_jwk") = some jwk →
      pyGet hd (strConv "kid") = some (.str ks) →
      subject_did (.obj hd) (.obj pl) = .ok (.str (splitHash0 ks))) := by
  refine ⟨?_, ?_, ?_, ?_, ?_⟩
  · intro hiss
    unfold subject_did
    dsimp only [pyGetJ]
    rw [hiss]
    rfl
  · intro iss hiss hne
    unfold subject_did
    dsimp only [pyGetJ]
    rw [hiss]
    dsimp only [Option.isNone]
    rw [if_neg (by simp)]
    rw [if_neg (by simp [optEq, hne])]
    rfl
  · intro hiss hsub
    unfold subject_did
    dsimp only [pyGetJ]
    rw [hiss, hsub]
    rfl
  · intro sub hiss hsub hjwk
    unfold subject_did
    dsimp only [pyGetJ]
    rw [hiss, hsub, hjwk]
    dsimp only [Option.isNone]
    rw [if_neg (by simp)]
    rw [if_pos (by rfl)]
    rw [if_neg (by simp)]
    rfl
  · intro sub jwk ks hiss hsub hjwk hkid
    unfold subject_did
    dsimp only [pyGetJ]
    rw [hiss, hsub, hjwk, hkid]
    dsimp only [Option.isNone]
    rw [if_neg (by simp)]
    rw [if_pos (by rfl)]
    rw [if_neg (by simp)]

/-- C4 witness: the self-issued flow with `sub_jwk` set takes the DID from
`header.kid` up to the first `#`. -/
theorem C4_witness :
    subject_did (.obj [(strConv "kid", Json.str (strConv "did:x:2#key-1"))])
      (.obj [(strConv "iss", Json.str (strConv "https://self-issued.me/v2")),
             (strConv "sub", Json.str (strConv "did:x:1")),
             (strConv "sub_jwk", Json.num 1)]) =
      .ok (.str (splitHash0 (strConv "did:x:2#key-1"))) :=
  (C4_subject_did [(strConv "kid", Json.str (strConv "did:x:2#key-1"))]
      [(strConv "iss", Json.str (strConv "https://self-issued.me/v2")),
       (strConv "sub", Json.str (strConv "did:x:1")),
       (strConv "sub_jwk", Json.num 1)]).2.2.2.2
    (Json.str (strConv "did:x:1")) (Json.num 1) (strConv "did:x:2#key-1")
    rfl rfl rfl rfl


/-- C5: every decoding failure — wrong segment count (the bare assert of
`decode_jws`), bad transport decoding, bad UTF-8 or bad JSON — is one of the
format errors, and `verify_jwt` terminates with exactly that rejection, for
every resolver, verifier, configuration and clock: no capability is
consulted and nothing else escapes. -/
theorem C5_format_rejection (jwt : Str) (e : PyErr) (hdec : decode_jwt jwt = .error e) :
    isFormatError e = true ∧
    ∀ config resolve verifyES now,
      verify_jwt jwt config resolve verifyES now = .error e :=
  ⟨decode_jwt_error jwt e hdec,
   fun config resolve verifyES now =>
     verify_jwt_decode_error jwt config resolve verifyES now e hdec⟩

/-- C5 witness: the two-segment input "a.b" is rejected with the bare
segment-count assertion. -/
theorem C5_witness :
    isFormatError (.assertFail "") = true ∧
    verify_jwt (strConv "a.b") ⟨none⟩ (fun _ _ => .error .typeError)
      (fun _ _ _ => .error .typeError) 0 = .error (.assertFail "") :=
  ⟨(C5_format_rejection (strConv "a.b") (.assertFail "") rfl).1,
   (C5_format_rejection (strConv "a.b") (.assertFail "") rfl).2 _ _ _ _⟩

/-- C6 (amended): when the resolver returns a result whose
`didDocument.verificationMethod` list is empty, `verify_jwt` crashes with an
uncaught `IndexError` at `verification_method[0]` — not a distinguishable
`NoVerificationMethod` rejection — and the verifier capability is never
invoked (the outcome is the same for every verifier); when the list is
non-empty only its first element is ever used as the authenticator. -/
theorem C6_verification_method (jwt : Str) (config : VerifyConfig)
    (resolve : Json → VerifyConfig → Except PyErr Json) (now : Int)
    (d : DecodedJwt) (did rr dd : Json)
    (hdec : decode_jwt jwt = .ok d)
    (hdid : subject_did d.header d.payload = .ok did)
    (hres : resolve did config = .ok rr)
    (hdd : pyGetJ rr (strConv "didDocument") = .ok (some dd)) :
    (pyGetJ dd (strConv "verificationMethod") = .ok (some (.arr [])) →
      ∀ verifyES, verify_jwt jwt config resolve verifyES now = .error .indexError) ∧
    (∀ a rest, pyGetJ dd (strConv "verificationMethod") = .ok (some (.arr (a :: rest))) →
      authenticator_of rr = .ok a) := by
  constructor
  · intro hvm verifyES
    have hauth : authenticator_of rr = .error .indexError := by
      unfold authenticator_of
      rw [hdd]
      dsimp only
      rw [hvm]
      rfl
    unfold verify_jwt
    rw [hdec]
    dsimp only
    rw [hdid]
    unfold verify_tail
    dsimp only
    rw [hres]
    dsimp only
    rw [hauth]
  · intro a rest hvm
    unfold authenticator_of
    rw [hdd]
    dsimp only
    rw [hvm]
    rfl

/-- C6 witness: a concrete token and a resolver whose verification-method
list is empty end in the `IndexError` crash, with a probe verifier that is
never reached. -/
theorem C6_witness :
    verify_jwt (strConv "e30.eyJpc3MiOiJkaWQ6ZXg6aSJ9.SIG") ⟨none⟩
      (fun _ _ => .ok (.obj [(strConv "didDocument",
        .obj [(strConv "verificationMethod", Json.arr [])])]))
      (fun _ _ _ => .error (.assertFail "VERIFIER CALLED")) 0 = .error .indexError :=
  (C6_verification_method (strConv "e30.eyJpc3MiOiJkaWQ6ZXg6aSJ9.SIG") ⟨none⟩
      (fun _ _ => .ok (.obj [(strConv "didDocument",
        .obj [(strConv "verificationMethod", Json.arr [])])])) 0
      ⟨.obj [], .obj [(strConv "iss", Json.str (strConv "did:ex:i"))], strConv "SIG",
        strConv "e30.eyJpc3MiOiJkaWQ6ZXg6aSJ9"⟩
      (.str (strConv "did:ex:i"))
      (.obj [(strConv "didDocument", .obj [(strConv "verificationMethod", Json.arr [])])])
      (.obj [(strConv "verificationMethod", Json.arr [])])
      rfl rfl rfl rfl).1 rfl _

/-- C6 counterexample to the spec wording: a full run over a token produced
by `create_jwt`, with a resolver returning an empty verification-method
list, ends in `.error .indexError` — the uncaught `IndexError` of
`verification_method[0]` — rather than in any distinguishable rejection; the
probe verifier error never surfaces. -/
theorem C6_counterexample :
    verify_jwt (create_jwt [] ⟨.str (strConv "did:ex:i"), fun _ => strConv "SIG"⟩ [] 0)
      ⟨none⟩
      (fun _ _ => .ok (.obj [(strConv "didDocument",
        .obj [(strConv "verificationMethod", Json.arr [])])]))
      (fun _ _ _ => .error (.assertFail "VERIFIER CALLED")) 0 = .error .indexError := rfl

/-- C7: the signature is computed over and checked against the transmitted
signing input — `create_jws` returns
`signing_input ++ "." ++ stripped signature of signing_input` with
`signing_input = encoded_header ++ "." ++ encoded_payload`; `decode_jws`
keeps `data` as the raw first two segments re-joined and the third segment
as the signature; and `verify_tail` consults the verifier only at
`(data, signature)`, never at re-encoded values. -/
theorem C7_signing_input (p hdr : List (Str × Json)) (signer : Str → Str) :
    create_jws p signer hdr =
      (stripEq (b64Encode (canonicalize (.obj hdr))) ++ 46 ::
        stripEq (b64Encode (canonicalize (.obj p)))) ++ 46 ::
        stripEq (signer (stripEq (b64Encode (canonicalize (.obj hdr))) ++ 46 ::
          stripEq (b64Encode (canonicalize (.obj p))))) ∧
    (∀ jwt p0 p1 p2 d, splitOn 46 jwt = [p0, p1, p2] → decode_jws jwt = .ok d →
      d.data = p0 ++ 46 :: p1 ∧ d.signature = p2) ∧
    (∀ d did config resolve v1 v2 jwt now,
      (∀ a, v1 d.data d.signature a = v2 d.data d.signature a) →
      verify_tail d did config resolve v1 jwt now =
        verify_tail d did config resolve v2 jwt now) := by
  refine ⟨rfl, ?_, ?_⟩
  · intro jwt p0 p1 p2 d hsplit hdec
    unfold decode_jws at hdec
    rw [hsplit] at hdec
    dsimp only at hdec
    split at hdec
    · simp at hdec
    · split at hdec
      · simp at hdec
      · split at hdec
        · simp at hdec
        · injection hdec with h2
          subst h2
          exact ⟨rfl, rfl⟩
  · intro d did config resolve v1 v2 jwt now hagree
    unfold verify_tail
    cases hres : resolve did config with
    | error e => rfl
    | ok rr =>
      dsimp only
      cases hauth : authenticator_of rr with
      | error e => rfl
      | ok a =>
        dsimp only
        rw [hagree a]

/-- C7 witness: concrete build and parse sides of the signing-input
invariant. -/
theorem C7_witness :
    create_jws [(strConv "a", Json.num 1)] (fun _ => strConv "SIG") [] =
      (stripEq (b64Encode (canonicalize (.obj []))) ++ 46 ::
        stripEq (b64Encode (canonicalize (.obj [(strConv "a", Json.num 1)])))) ++ 46 ::
        stripEq ((fun _ => strConv "SIG")
          (stripEq (b64Encode (canonicalize (.obj []))) ++ 46 ::
            stripEq (b64Encode (canonicalize (.obj [(strConv "a", Json.num 1)]))))) ∧
    ((⟨.obj [], strConv "e30", strConv "SIG", strConv "e30.e30"⟩ : DecodedJws).data =
        strConv "e30" ++ 46 :: strConv "e30" ∧
      (⟨.obj [], strConv "e30", strConv "SIG", strConv "e30.e30"⟩ : DecodedJws).signature =
        strConv "SIG") :=
  ⟨(C7_signing_input [(strConv "a", Json.num 1)] [] (fun _ => strConv "SIG")).1,
   (C7_signing_input [(strConv "a", Json.num 1)] [] (fun _ => strConv "SIG")).2.1
     (strConv "e30.e30.SIG") (strConv "e30") (strConv "e30") (strConv "SIG")
     ⟨.obj [], strConv "e30", strConv "SIG", strConv "e30.e30"⟩ rfl rfl⟩


/-- Whether an `Except` result is a success. -/
def exceptOk {α : Type} : Except PyErr α → Bool
  | .ok _ => true
  | .error _ => false

/-- C8 (amended): the audience check runs only when `payload.aud` is truthy
AND the configured audience is truthy — membership for a list audience,
equality otherwise, rejecting with "Invalid audience"; an unset audience
ignores `aud` entirely, and (the correction) a configured-but-falsy audience
such as `[]` also skips the check entirely. -/
theorem C8_audience (pl : List (Str × Json)) (audience : Option Json) :
    (validate_aud (.obj pl) none = .ok ()) ∧
    (∀ aud l, pyGet pl (strConv "aud") = some aud → truthy aud = true →
      audience = some (.arr l) → truthy (.arr l) = true →
      validate_aud (.obj pl) audience =
        (if l.any (fun v => jeq aud v) then .ok ()
         else .error (.assertFail "Invalid audience"))) ∧
    (∀ aud a, pyGet pl (strConv "aud") = some aud → truthy aud = true →
      audience = some a → truthy a = true → (∀ l, a ≠ .arr l) →
      validate_aud (.obj pl) audience =
        (if jeq aud a then .ok () else .error (.assertFail "Invalid audience"))) ∧
    (∀ a, audience = some a → truthy a = false →
      validate_aud (.obj pl) audience = .ok ()) := by
  refine ⟨?_, ?_, ?_, ?_⟩
  · unfold validate_aud
    dsimp only [pyGetJ]
    by_cases ht : truthyOpt (pyGet pl (strConv "aud")) = true
    · rw [if_pos ht]
      rfl
    · rw [if_neg ht]
  · intro aud l haud htr haudience htra
    subst haudience
    unfold validate_aud
    dsimp only [pyGetJ]
    rw [haud, if_pos (show truthyOpt (some aud) = true from htr),
      if_pos (show truthyOpt (some (Json.arr l)) = true from htra)]
    rfl
  · intro aud a haud htr haudience htra hne
    subst haudience
    unfold validate_aud
    dsimp only [pyGetJ]
    rw [haud, if_pos (show truthyOpt (some aud) = true from htr),
      if_pos (show truthyOpt (some a) = true from htra)]
    cases a with
    | arr l => exact absurd rfl (hne l)
    | null => rfl
    | bool b => rfl
    | num n => rfl
    | str s => rfl
    | obj m => rfl
  · intro a haudience htf
    subst haudience
    unfold validate_aud
    dsimp only [pyGetJ]
    by_cases ht : truthyOpt (pyGet pl (strConv "aud")) = true
    · rw [if_pos ht, if_neg (show ¬truthyOpt (some a) = true by
        simp only [truthyOpt, htf]; simp)]
    · rw [if_neg ht]

/-- C8 witness: a list audience is checked by membership. -/
theorem C8_witness :
    validate_aud (.obj [(strConv "aud", Json.str (strConv "a"))])
      (some (.arr [Json.str (strConv "a"), Json.str (strConv "b")])) =
      (if [Json.str (strConv "a"), Json.str (strConv "b")].any
          (fun v => jeq (Json.str (strConv "a")) v) then .ok ()
       else .error (.assertFail "Invalid audience")) :=
  (C8_audience [(strConv "aud", Json.str (strConv "a"))]
      (some (.arr [Json.str (strConv "a"), Json.str (strConv "b")]))).2.1
    (Json.str (strConv "a")) [Json.str (strConv "a"), Json.str (strConv "b")]
    rfl rfl rfl rfl

/-- C8 counterexample to the spec wording: with the audience configured as
the (falsy) empty collection `[]` and `payload.aud = "a"` — a value that is
not a member — the whole verification still succeeds instead of rejecting
with "Invalid audience". -/
theorem C8_counterexample :
    exceptOk (verify_jwt (create_jwt [(strConv "aud", Json.str (strConv "a"))]
        ⟨.str (strConv "did:ex:i"), fun _ => strConv "SIG"⟩ [] 1000)
      ⟨some (.arr [])⟩
      (fun _ _ => .ok (.obj [(strConv "didDocument",
        .obj [(strConv "verificationMethod", Json.arr [Json.str (strConv "K")])])]))
      (fun _ _ _ => .ok true) 1000) = true := rfl

/-- C9: a payload whose `aud` key is bound to a falsy value (empty string,
`0`, or `null`) skips the audience comparison entirely, for every configured
audience, so the audience validation succeeds and no "Invalid audience"
rejection can arise. -/
theorem C9_falsy_aud (pl : List (Str × Json)) (v : Json) (audience : Option Json)
    (hv : olookup pl (strConv "aud") = some v) (hf : truthy v = false) :
    validate_aud (.obj pl) audience = .ok () := by
  have hget : truthyOpt (pyGet pl (strConv "aud")) = false := by
    unfold pyGet
    rw [hv]
    cases v with
    | null => rfl
    | bool b => exact hf
    | num n => exact hf
    | str s => exact hf
    | arr l => exact hf
    | obj m => exact hf
  unfold validate_aud
  dsimp only [pyGetJ]
  rw [if_neg (by simp [hget])]

/-- C9 witness: an empty-string `aud` is accepted against a configured
audience it does not match. -/
theorem C9_witness :
    validate_aud (.obj [(strConv "aud", Json.str [])])
      (some (Json.str (strConv "a"))) = .ok () :=
  C9_falsy_aud [(strConv "aud", Json.str [])] (Json.str [])
    (some (Json.str (strConv "a"))) rfl rfl

/-- C10: a self-issued token carrying both `sub` and `sub_jwk` whose header
lacks `kid` makes `verify_jwt` fail with the uncaught attribute error of
calling `split` on the missing value, for every resolver, verifier,
configuration and clock — before the resolver is ever invoked and not as a
distinguishable rejection. -/
theorem C10_missing_kid (jwt : Str) (d : DecodedJwt) (hd pl : List (Str × Json))
    (hdec : decode_jwt jwt = .ok d) (hhd : d.header = .obj hd) (hpl : d.payload = .obj pl)
    (hiss : pyGet pl (strConv "iss") = some (.str (strConv "https://self-issued.me/v2")))
    (hsub : ∃ s, pyGet pl (strConv "sub") = some s)
    (hjwk : ∃ j, pyGet pl (strConv "sub_jwk") = some j)
    (hkid : pyGet hd (strConv "kid") = none) :
    ∀ config resolve verifyES now,
      verify_jwt jwt config resolve verifyES now = .error .attributeError := by
  intro config resolve verifyES now
  obtain ⟨s, hs⟩ := hsub
  obtain ⟨j, hj⟩ := hjwk
  have hsd : subject_did d.header d.payload = .error .attributeError := by
    rw [hhd, hpl]
    unfold subject_did
    dsimp only [pyGetJ]
    rw [hiss, hs, hj, hkid]
    dsimp only [Option.isNone]
    rw [if_neg (by simp), if_pos (by rfl), if_neg (by simp)]
  unfold verify_jwt
  rw [hdec]
  dsimp only
  rw [hsd]

set_option maxRecDepth 10000 in
/-- C10 witness: a concrete self-issued token with `sub` and `sub_jwk` but
no header `kid` crashes with the attribute error; the probe resolver error
never surfaces. -/
theorem C10_witness :
    verify_jwt (strConv
        "e30.eyJpc3MiOiJodHRwczovL3NlbGYtaXNzdWVkLm1lL3YyIiwic3ViIjoiZGlkOng6MSIsInN1Yl9qd2siOjF9.SIG")
      ⟨none⟩ (fun _ _ => .error (.assertFail "RESOLVER CALLED"))
      (fun _ _ _ => .error (.assertFail "VERIFIER CALLED")) 0 =
      .error .attributeError :=
  C10_missing_kid (strConv
      "e30.eyJpc3MiOiJodHRwczovL3NlbGYtaXNzdWVkLm1lL3YyIiwic3ViIjoiZGlkOng6MSIsInN1Yl9qd2siOjF9.SIG")
    ⟨.obj [], .obj [(strConv "iss", Json.str (strConv "https://self-issued.me/v2")),
       (strConv "sub", Json.str (strConv "did:x:1")),
       (strConv "sub_jwk", Json.num 1)], strConv "SIG",
      strConv "e30.eyJpc3MiOiJodHRwczovL3NlbGYtaXNzdWVkLm1lL3YyIiwic3ViIjoiZGlkOng6MSIsInN1Yl9qd2siOjF9"⟩
    [] [(strConv "iss", Json.str (strConv "https://self-issued.me/v2")),
       (strConv "sub", Json.str (strConv "did:x:1")),
       (strConv "sub_jwk", Json.num 1)]
    rfl rfl rfl rfl ⟨Json.str (strConv "did:x:1"), rfl⟩ ⟨Json.num 1, rfl⟩ rfl
    ⟨none⟩ (fun _ _ => .error (.assertFail "RESOLVER CALLED"))
    (fun _ _ _ => .error (.assertFail "VERIFIER CALLED")) 0


end Claims
